import Mathlib

/-!
Verification of the msgbus message broker (`src/msgbus.go`) against its
natural-language specification.

The Go code is shallowly embedded: Go maps become association lists over
`String` keys, Go channels become indices into an allocation-ordered store
of `Chan` records, a `select`-with-`default` send succeeds exactly when the
environment (`ready : String → Bool`) says the receiver is ready, and the
two Go runtime panics reachable from this code (`close` of a nil channel,
`close` of a closed channel) set a `panicked` flag.  Timestamps and TTLs
are informational in the source and are not modelled.  The `Queue` and
`Metrics` types are used but not defined in `src/`; they are modelled from
the specification where noted.
-/

namespace Msgbus

/-- Go `uint64` modulus: sequence counters are 64-bit and wrap. -/
def U64 : Nat := 2 ^ 64

/-- One byte of a Go `[]byte` payload. -/
abbrev Byte := Nat

/-- Go `[]byte` request/message payload. -/
abbrev Payload := List Byte

/-- Association-list lookup, modelling Go map indexing `m[k]` with its
`ok` result. -/
def lookup? {β : Type} : List (String × β) → String → Option β
  | [], _ => none
  | (k, v) :: rest, key => if k = key then some v else lookup? rest key

/-- Association-list update, modelling Go map assignment `m[k] = v`. -/
def setKey {β : Type} : List (String × β) → String → β → List (String × β)
  | [], key, v => [(key, v)]
  | (k, w) :: rest, key, v =>
      if k = key then (key, v) :: rest else (k, w) :: setKey rest key v

/-- Association-list deletion, modelling Go `delete(m, k)`. -/
def eraseKey {β : Type} : List (String × β) → String → List (String × β)
  | [], _ => []
  | (k, w) :: rest, key => if k = key then rest else (k, w) :: eraseKey rest key

/-- `Topic` (src/msgbus.go:48): name and monotonic sequence counter.
`TTL` and `Created` carry wall-clock information only and are not
modelled. -/
structure Topic where
  Name : String
  Sequence : Nat
deriving Repr, DecidableEq

/-- `Message` (src/msgbus.go:56).  The Go field `Topic *Topic` is a pointer
to the bus's unique, never-destroyed topic of that name, so the name is a
faithful identity; `Created` is wall-clock only. -/
structure Message where
  ID : Nat
  Topic : String
  Payload : Payload
deriving Repr, DecidableEq

/-- Modelled from the spec: the repository's `Queue` type lives in a file
that is not under `src/`; `src/msgbus.go` only constructs (`&Queue{}`) and
calls it.  Spec §3 "Queue": a topic-local ordered sequence of messages
with capacity `max-queue-size`; Push appends to the tail, dropping the
oldest (head) element first when at capacity; Pop removes and returns the
head, or signals empty. -/
structure Queue where
  maxlen : Nat
  items : List Message
deriving Repr, DecidableEq

/-- Modelled from the spec: Push appends to the tail; at capacity the
oldest (head) element is dropped before appending. -/
def Queue.Push (q : Queue) (m : Message) : Queue :=
  let items := if q.maxlen ≤ q.items.length then q.items.drop 1 else q.items
  { q with items := items ++ [m] }

/-- Modelled from the spec: Pop removes and returns the head, or signals
empty (`none`). -/
def Queue.Pop (q : Queue) : Option Message × Queue :=
  match q.items with
  | [] => (none, q)
  | m :: rest => (some m, { q with items := rest })

/-- Modelled from the spec: number of queued messages. -/
def Queue.Len (q : Queue) : Nat := q.items.length

/-- Observable state of one Go `chan Message`: the capacity it was `make`d
with and whether it has been closed.  Channels are named by their index in
the bus's allocation-ordered store. -/
structure Chan where
  cap : Nat
  closed : Bool
deriving Repr, DecidableEq

/-- `Listeners` (src/msgbus.go:64): Go `ids map[string]bool` and
`chs map[string]chan Message`. -/
structure Listeners where
  ids : List (String × Bool)
  chs : List (String × Nat)
deriving Repr, DecidableEq

/-- `NewListeners` (src/msgbus.go:70). -/
def NewListeners : Listeners := { ids := [], chs := [] }

/-- `Listeners.Length` (src/msgbus.go:78): `len(ls.ids)`. -/
def Listeners.Length (ls : Listeners) : Nat := ls.ids.length

/-- `Listeners.Add` (src/msgbus.go:83): records the id and a freshly made
channel (`make(chan Message)`, an unbuffered channel), and returns that
channel.  The bus supplies the fresh channel's name `newChan`. -/
def Listeners.Add (ls : Listeners) (id : String) (newChan : Nat) : Nat × Listeners :=
  (newChan, { ids := setKey ls.ids id true, chs := setKey ls.chs id newChan })

/-- `Listeners.Remove` (src/msgbus.go:90): deletes the id, closes
`ls.chs[id]` and deletes it.  The first component is the channel that
`close` is applied to; `none` means `ls.chs` had no entry, in which case
Go closes the zero-value nil channel — a runtime panic the caller
records. -/
def Listeners.Remove (ls : Listeners) (id : String) : Option Nat × Listeners :=
  (lookup? ls.chs id, { ids := eraseKey ls.ids id, chs := eraseKey ls.chs id })

/-- `Listeners.Exists` (src/msgbus.go:98): key test on `ls.ids`. -/
def Listeners.Exists (ls : Listeners) (id : String) : Bool :=
  (lookup? ls.ids id).isSome

/-- `Listeners.Get` (src/msgbus.go:104): `ls.chs[id]` with its `ok`. -/
def Listeners.Get (ls : Listeners) (id : String) : Option Nat :=
  lookup? ls.chs id

/-- `Listeners.NotifyAll` (src/msgbus.go:113): non-blocking send of the
message on every channel in `chs` (`select` with `default`); the send to
subscriber `id` succeeds exactly when `ready id` holds.  Returns the
count of successful sends and the list of performed channel hand-offs.
Go iterates the map in unspecified order; the association-list order
stands in for one such order. -/
def Listeners.NotifyAll (ls : Listeners) (m : Message) (ready : String → Bool) :
    Nat × List (String × Message) :=
  ls.chs.foldl
    (fun acc idch => if ready idch.1 then (acc.1 + 1, acc.2 ++ [(idch.1, m)]) else acc)
    (0, [])

/-- Modelled from the spec: the repository's `Metrics` facade lives in a
file that is not under `src/`; `src/msgbus.go` only calls
`Counter(ns, name).Inc()` and `Gauge(ns, name).Inc()/.Dec()`.  Spec §4.8:
named counters and gauges; `Inc` adds one, `Dec` subtracts one; all start
at zero.  Only the counters and the gauge the broker touches are
carried. -/
structure Metrics where
  busMessages : Nat
  busDropped : Nat
  busFetched : Nat
  busTopics : Nat
  busSubscribers : Int
  serverRequests : Nat
deriving Repr, DecidableEq

/-- `Options` (src/msgbus.go:131) carries `WithMetrics` (its `DefaultTTL`
is wall-clock only and not modelled).  `MaxQueueSize` is modelled from
the spec's broker construction options (§6): capacity of each topic's
pull queue.  Go's nil `*Options` corresponds to
`{WithMetrics := false, ...}`. -/
structure Options where
  WithMetrics : Bool
  MaxQueueSize : Nat
deriving Repr, DecidableEq

/-- `MessageBus` (src/msgbus.go:137).  Go keys `queues` and `listeners`
by `*Topic`; the bus holds exactly one never-destroyed topic per name, so
the topic name is a faithful key.  `chans` is the allocation-ordered
store of every channel the bus ever made; `delivered` logs every
successful channel hand-off `(subscriber id, message)`; `panicked` is set
when the Go code would panic (close of a nil or of an already-closed
channel). -/
structure MessageBus where
  withMetrics : Bool
  metrics : Metrics
  maxQueueSize : Nat
  topics : List (String × Topic)
  queues : List (String × Queue)
  listeners : List (String × Listeners)
  chans : List Chan
  delivered : List (String × Message)
  panicked : Bool
deriving Repr, DecidableEq

/-- `NewMessageBus` (src/msgbus.go:149): fresh registries, metrics at
zero. -/
def NewMessageBus (options : Options) : MessageBus :=
  { withMetrics := options.WithMetrics
    metrics := ⟨0, 0, 0, 0, 0, 0⟩
    maxQueueSize := options.MaxQueueSize
    topics := []
    queues := []
    listeners := []
    chans := []
    delivered := []
    panicked := false }

/-- `MessageBus.Len` (src/msgbus.go:245): `len(mb.topics)`. -/
def MessageBus.Len (mb : MessageBus) : Nat := mb.topics.length

/-- `MessageBus.NewTopic` (src/msgbus.go:255): return the existing topic,
or create one with sequence 0 and count it in `bus.topics`. -/
def MessageBus.NewTopic (mb : MessageBus) (topic : String) : Topic × MessageBus :=
  match lookup? mb.topics topic with
  | some t => (t, mb)
  | none =>
      let t : Topic := { Name := topic, Sequence := 0 }
      let metrics :=
        if mb.withMetrics then
          { mb.metrics with busTopics := mb.metrics.busTopics + 1 }
        else mb.metrics
      (t, { mb with topics := setKey mb.topics topic t, metrics := metrics })

/-- `MessageBus.NewMessage` (src/msgbus.go:271): the message's `ID` is the
topic's sequence counter at the moment of the call; the deferred block
then increments that counter (64-bit wrap) and the `bus.messages`
counter.  The Go code increments through the `*Topic` pointer; the bus's
registered topic of that name is the same object, so the increment is
written back into `mb.topics`, and the updated topic is also returned for
callers that keep reading the pointer. -/
def MessageBus.NewMessage (mb : MessageBus) (t : Topic) (payload : Payload) :
    Message × Topic × MessageBus :=
  let msg : Message := { ID := t.Sequence, Topic := t.Name, Payload := payload }
  let t' : Topic := { t with Sequence := (t.Sequence + 1) % U64 }
  let metrics :=
    if mb.withMetrics then
      { mb.metrics with busMessages := mb.metrics.busMessages + 1 }
    else mb.metrics
  (msg, t', { mb with topics := setKey mb.topics t.Name t', metrics := metrics })

/-- `MessageBus.NotifyAll` (src/msgbus.go:326): fan the message out to the
topic's listener set, if any; when not every listener accepted and
metrics are on, increment `bus.dropped` (once per fan-out). -/
def MessageBus.NotifyAll (mb : MessageBus) (message : Message) (ready : String → Bool) :
    MessageBus :=
  match lookup? mb.listeners message.Topic with
  | none => mb
  | some ls =>
      let nsends := ls.NotifyAll message ready
      let metrics :=
        if nsends.1 ≠ ls.Length ∧ mb.withMetrics then
          { mb.metrics with busDropped := mb.metrics.busDropped + 1 }
        else mb.metrics
      { mb with delivered := mb.delivered ++ nsends.2, metrics := metrics }

/-- `MessageBus.Put` (src/msgbus.go:288): fetch or create the topic's
queue (`&Queue{}`; its capacity is the configured max-queue-size,
modelled from the spec), push the message, then fan out. -/
def MessageBus.Put (mb : MessageBus) (message : Message) (ready : String → Bool) :
    MessageBus :=
  let q :=
    match lookup? mb.queues message.Topic with
    | some q => q
    | none => { maxlen := mb.maxQueueSize, items := [] }
  let mb' := { mb with queues := setKey mb.queues message.Topic (q.Push message) }
  mb'.NotifyAll message ready

/-- `MessageBus.Get` (src/msgbus.go:305): pop the head of the topic's
queue; `none` when the queue is missing or empty; a successful pop
increments `bus.fetched`. -/
def MessageBus.Get (mb : MessageBus) (topic : Topic) : Option Message × MessageBus :=
  match lookup? mb.queues topic.Name with
  | none => (none, mb)
  | some q =>
      match q.Pop with
      | (none, _) => (none, mb)
      | (some m, q') =>
          let metrics :=
            if mb.withMetrics then
              { mb.metrics with busFetched := mb.metrics.busFetched + 1 }
            else mb.metrics
          (some m, { mb with queues := setKey mb.queues topic.Name q', metrics := metrics })

/-- Go `close(ch)` on a channel of the store: closing an unknown or an
already-closed channel is a runtime panic. -/
def MessageBus.closeChan (mb : MessageBus) (ch : Nat) : MessageBus :=
  match mb.chans[ch]? with
  | none => { mb with panicked := true }
  | some c =>
      if c.closed then { mb with panicked := true }
      else { mb with chans := mb.chans.set ch { c with closed := true } }

/-- The deferred gauge bump of `MessageBus.Subscribe` (src/msgbus.go:345):
runs on every call, whatever path was taken. -/
def MessageBus.gaugeInc (mb : MessageBus) : MessageBus :=
  if mb.withMetrics then
    { mb with metrics := { mb.metrics with busSubscribers := mb.metrics.busSubscribers + 1 } }
  else mb

/-- The deferred gauge bump of `MessageBus.Unsubscribe`
(src/msgbus.go:374): runs on every call, whatever path was taken. -/
def MessageBus.gaugeDec (mb : MessageBus) : MessageBus :=
  if mb.withMetrics then
    { mb with metrics := { mb.metrics with busSubscribers := mb.metrics.busSubscribers - 1 } }
  else mb

/-- `MessageBus.Subscribe` (src/msgbus.go:344): ensure the topic exists
(inline, without the `bus.topics` counter), ensure its listener set
exists, return the already-registered channel when `id` is subscribed,
else add a fresh unbuffered channel.  The deferred gauge increment runs
in every case.  The result channel is an `Option` because Go returns a
(nullable) channel value. -/
def MessageBus.Subscribe (mb : MessageBus) (id topic : String) : Option Nat × MessageBus :=
  let tmb :=
    match lookup? mb.topics topic with
    | some t => (t, mb)
    | none =>
        let t : Topic := { Name := topic, Sequence := 0 }
        (t, { mb with topics := setKey mb.topics topic t })
  let t := tmb.1
  let mb1 := tmb.2
  let lsmb :=
    match lookup? mb1.listeners t.Name with
    | some ls => (ls, mb1)
    | none => (NewListeners, { mb1 with listeners := setKey mb1.listeners t.Name NewListeners })
  let ls := lsmb.1
  let mb2 := lsmb.2
  let res :=
    if ls.Exists id then
      (ls.Get id, mb2)
    else
      let fresh := mb2.chans.length
      let chls := ls.Add id fresh
      (some chls.1,
       { mb2 with
           listeners := setKey mb2.listeners t.Name chls.2
           chans := mb2.chans ++ [{ cap := 0, closed := false }] })
  (res.1, res.2.gaugeInc)

/-- `MessageBus.Unsubscribe` (src/msgbus.go:373): silently return when the
topic or its listener set is unknown; when `id` is subscribed, remove it,
which closes its channel.  The deferred gauge decrement runs in every
case. -/
def MessageBus.Unsubscribe (mb : MessageBus) (id topic : String) : MessageBus :=
  MessageBus.gaugeDec <|
    match lookup? mb.topics topic with
    | none => mb
    | some t =>
        match lookup? mb.listeners t.Name with
        | none => mb
        | some ls =>
            if ls.Exists id then
              let chls := ls.Remove id
              let mb' := { mb with listeners := setKey mb.listeners t.Name chls.2 }
              match chls.1 with
              | none => { mb' with panicked := true }
              | some ch => mb'.closeChan ch
            else mb

/-- HTTP response: status code and literal body text. -/
structure Response where
  status : Nat
  body : String
deriving Repr, DecidableEq

/-- Topic-name extraction of `ServeHTTP` (src/msgbus.go:418):
`strings.TrimLeft(path, "/")` then `strings.TrimRight(..., "/")`. -/
def trimSlashes (s : String) : String :=
  String.mk (((s.data.dropWhile (fun c => c = '/')).reverse.dropWhile
    (fun c => c = '/')).reverse)

/-- The deferred `server.requests` counter bump of `ServeHTTP`
(src/msgbus.go:398-402): runs on every request. -/
def MessageBus.reqInc (mb : MessageBus) : MessageBus :=
  if mb.withMetrics then
    { mb with metrics := { mb.metrics with serverRequests := mb.metrics.serverRequests + 1 } }
  else mb

/-- The `POST`/`PUT` arm of `MessageBus.ServeHTTP` (src/msgbus.go:424):
trim the path to a topic name, ensure the topic, read the whole request
body (`ioutil.ReadAll`, no size limit), assign a sequence, publish, and
answer 200 with the literal text; the response interpolates the topic's
`Sequence` as the pointer reads after the increment.  The deferred
`server.requests` increment runs last. -/
def MessageBus.ServeHTTPPost (mb : MessageBus) (path : String) (body : Payload)
    (ready : String → Bool) : Response × MessageBus :=
  let topic := trimSlashes path
  let tmb := mb.NewTopic topic
  let mtb := tmb.2.NewMessage tmb.1 body
  let message := mtb.1
  let t' := mtb.2.1
  let mb' := (mtb.2.2.Put message ready)
  let msg := "message successfully published to " ++ t'.Name ++ " with sequence "
    ++ toString t'.Sequence
  ({ status := 200, body := msg }, mb'.reqInc)

/-- The fetch-or-create step of `MessageBus.Put` (src/msgbus.go:294-298),
named so that `Put`'s effect on the queue registry can be stated. -/
def MessageBus.queueFor (mb : MessageBus) (topic : String) : Queue :=
  match lookup? mb.queues topic with
  | some q => q
  | none => { maxlen := mb.maxQueueSize, items := [] }

/-- The pull arm of `MessageBus.ServeHTTP` (src/msgbus.go:440): a plain
`GET /<topic>` ensures the topic and pops its queue. -/
def MessageBus.pullOnce (mb : MessageBus) (name : String) : Option Message × MessageBus :=
  let tmb := mb.NewTopic name
  tmb.2.Get tmb.1

/-- The publish pipeline of the `POST`/`PUT` arm at broker level: ensure
the topic, assign a sequence (`NewMessage`), enqueue and fan out
(`Put`). -/
def MessageBus.publishOne (mb : MessageBus) (name : String) (payload : Payload)
    (ready : String → Bool) : MessageBus :=
  let tmb := mb.NewTopic name
  let mtb := tmb.2.NewMessage tmb.1 payload
  mtb.2.2.Put mtb.1 ready

/-- Publishes `n` messages to topic `name`, the `k`-th carrying payload
`payloads k`. -/
def MessageBus.publishN (mb : MessageBus) (name : String) (payloads : Nat → Payload)
    (ready : String → Bool) : Nat → MessageBus
  | 0 => mb
  | n + 1 => (mb.publishN name payloads ready n).publishOne name (payloads n) ready

/-- Pulls `n` times from topic `name`, collecting the `Get` results in
order. -/
def MessageBus.pullN (mb : MessageBus) (name : String) :
    Nat → List (Option Message) × MessageBus
  | 0 => ([], mb)
  | n + 1 =>
      let r := mb.pullOnce name
      let rest := r.2.pullN name n
      (r.1 :: rest.1, rest.2)

/-- Performs `n` successive `NewMessage` calls on topic `name` (ensuring
the topic first, as every caller in the source does), collecting the
assigned message ids in call order. -/
def MessageBus.newMessageIds (mb : MessageBus) (name : String) (payloads : Nat → Payload) :
    Nat → List Nat × MessageBus
  | 0 => ([], mb)
  | n + 1 =>
      let acc := mb.newMessageIds name payloads n
      let tmb := acc.2.NewTopic name
      let mtb := tmb.2.NewMessage tmb.1 (payloads n)
      (acc.1 ++ [mtb.1.ID], mtb.2.2)

/-- Whether `id` is currently subscribed to `topic`: the test
`MessageBus.Unsubscribe` performs before removing. -/
def MessageBus.subscribed (mb : MessageBus) (id topic : String) : Bool :=
  match lookup? mb.topics topic with
  | none => false
  | some t =>
      match lookup? mb.listeners t.Name with
      | none => false
      | some ls => ls.Exists id

/-- The channel named `ch` exists in the store and is open. -/
def openChan (chans : List Chan) (ch : Nat) : Bool :=
  match chans[ch]? with
  | some c => !c.closed
  | none => false

/-- Well-formedness of one listener set against the channel store: both
maps have duplicate-free keys, the same keys (Go writes and deletes them
in lockstep), and every registered channel exists and is open. -/
def ListenersWF (chans : List Chan) (ls : Listeners) : Prop :=
  (ls.ids.map Prod.fst).Nodup ∧
  (ls.chs.map Prod.fst).Nodup ∧
  (∀ p ∈ ls.ids, (lookup? ls.chs p.1).isSome = true) ∧
  (∀ p ∈ ls.chs, (lookup? ls.ids p.1).isSome = true) ∧
  (∀ p ∈ ls.chs, openChan chans p.2 = true)

/-- Every registered topic's `Name` field equals its key in the topic
registry (the source always stores `topics[topic] = &Topic{Name: topic}`). -/
def TopicsNamed (mb : MessageBus) : Prop :=
  ∀ p ∈ mb.topics, p.2.Name = p.1

/-- Bus-level well-formedness: no Go panic has occurred, topics are keyed
by their own name, every listener set belongs to a registered topic, the
listener registry has duplicate-free keys, each listener set is well
formed, and no channel is registered in two listener slots (`Add` always
allocates a fresh channel). -/
def busWF (mb : MessageBus) : Prop :=
  mb.panicked = false ∧
  TopicsNamed mb ∧
  (∀ p ∈ mb.listeners, (lookup? mb.topics p.1).isSome = true) ∧
  (mb.listeners.map Prod.fst).Nodup ∧
  (∀ p ∈ mb.listeners, ListenersWF mb.chans p.2) ∧
  (∀ p ∈ mb.listeners, ∀ q ∈ mb.listeners, ∀ a ∈ p.2.chs, ∀ b ∈ q.2.chs,
     a.2 = b.2 → p.1 = q.1 ∧ a.1 = b.1)

instance (chans : List Chan) (ls : Listeners) : Decidable (ListenersWF chans ls) := by
  unfold ListenersWF; infer_instance

instance (mb : MessageBus) : Decidable (TopicsNamed mb) := by
  unfold TopicsNamed; infer_instance

instance (mb : MessageBus) : Decidable (busWF mb) := by
  unfold busWF; infer_instance

/-- Every queue in the registry was created with capacity
`mb.maxQueueSize` and holds at most `max 1 maxlen` messages (`max 1`
covers the degenerate capacity-0 configuration, where a push still leaves
one element behind). -/
def QueuesWF (mb : MessageBus) : Prop :=
  ∀ p ∈ mb.queues, p.2.maxlen = mb.maxQueueSize ∧ p.2.items.length ≤ max 1 p.2.maxlen

/-- One invocation of the public broker surface, as driven by the HTTP and
websocket layers. -/
inductive Op where
  | subscribe (id topic : String)
  | unsubscribe (id topic : String)
  | publish (path : String) (body : Payload) (ready : String → Bool)
  | pull (topic : String)
  | newTopic (topic : String)

/-- Applies one public operation to the bus, discarding the value it
returns to the caller. -/
def applyOp (mb : MessageBus) : Op → MessageBus
  | .subscribe id topic => (mb.Subscribe id topic).2
  | .unsubscribe id topic => mb.Unsubscribe id topic
  | .publish path body ready => (mb.ServeHTTPPost path body ready).2
  | .pull topic => (mb.pullOnce topic).2
  | .newTopic topic => (mb.NewTopic topic).2

/-- Runs a sequence of public operations on a freshly constructed bus. -/
def run (options : Options) (ops : List Op) : MessageBus :=
  ops.foldl applyOp (NewMessageBus options)

/-! Association-list lemmas: the Go-map shims behave like maps. -/

theorem lookup?_setKey_self {β : Type} (m : List (String × β)) (k : String) (v : β) :
    lookup? (setKey m k v) k = some v := by
  induction m with
  | nil => simp [setKey, lookup?]
  | cons p rest ih =>
      obtain ⟨a, b⟩ := p
      by_cases h : a = k
      · simp [setKey, h, lookup?]
      · simp [setKey, h, lookup?, ih]

theorem lookup?_setKey_ne {β : Type} (m : List (String × β)) (k : String) (v : β)
    (k' : String) (h : k' ≠ k) : lookup? (setKey m k v) k' = lookup? m k' := by
  induction m with
  | nil => simp [setKey, lookup?, Ne.symm h]
  | cons p rest ih =>
      obtain ⟨a, b⟩ := p
      by_cases ha : a = k
      · subst ha
        simp [setKey, lookup?, Ne.symm h]
      · simp only [setKey, if_neg ha, lookup?]
        by_cases ha' : a = k'
        · simp [ha']
        · simp [ha', ih]

theorem mem_setKey {β : Type} {m : List (String × β)} {k : String} {v : β}
    {x : String × β} (h : x ∈ setKey m k v) : x = (k, v) ∨ x ∈ m := by
  induction m with
  | nil => simpa [setKey] using h
  | cons p rest ih =>
      obtain ⟨a, b⟩ := p
      by_cases ha : a = k
      · simp only [setKey, if_pos ha, List.mem_cons] at h
        rcases h with h | h
        · exact Or.inl h
        · exact Or.inr (List.mem_cons_of_mem _ h)
      · simp only [setKey, if_neg ha, List.mem_cons] at h
        rcases h with h | h
        · exact Or.inr (by simp [h])
        · rcases ih h with h' | h'
          · exact Or.inl h'
          · exact Or.inr (List.mem_cons_of_mem _ h')

theorem mem_keys_setKey {β : Type} {m : List (String × β)} {k : String} {v : β}
    {y : String} (h : y ∈ (setKey m k v).map Prod.fst) :
    y = k ∨ y ∈ m.map Prod.fst := by
  rcases List.mem_map.1 h with ⟨x, hx, rfl⟩
  rcases mem_setKey hx with h' | h'
  · subst h'; exact Or.inl rfl
  · exact Or.inr (List.mem_map_of_mem _ h')

theorem keys_setKey_nodup {β : Type} {m : List (String × β)} {k : String} {v : β}
    (h : (m.map Prod.fst).Nodup) : ((setKey m k v).map Prod.fst).Nodup := by
  induction m with
  | nil => simp [setKey]
  | cons p rest ih =>
      obtain ⟨a, b⟩ := p
      simp only [List.map_cons, List.nodup_cons] at h
      by_cases ha : a = k
      · subst ha
        simpa [setKey, List.nodup_cons] using h
      · simp only [setKey, if_neg ha, List.map_cons, List.nodup_cons]
        refine ⟨fun hmem => ?_, ih h.2⟩
        rcases mem_keys_setKey hmem with h' | h'
        · exact ha h'
        · exact h.1 h'

theorem lookup?_mem {β : Type} {m : List (String × β)} {k : String} {v : β}
    (h : lookup? m k = some v) : (k, v) ∈ m := by
  induction m with
  | nil => simp [lookup?] at h
  | cons p rest ih =>
      obtain ⟨a, b⟩ := p
      by_cases ha : a = k
      · subst ha
        have hb : b = v := by simpa [lookup?] using h
        simp [hb]
      · simp only [lookup?, if_neg ha] at h
        exact List.mem_cons_of_mem _ (ih h)

theorem mem_lookup? {β : Type} {m : List (String × β)} {k : String} {v : β}
    (hnd : (m.map Prod.fst).Nodup) (h : (k, v) ∈ m) : lookup? m k = some v := by
  induction m with
  | nil => simp at h
  | cons p rest ih =>
      obtain ⟨a, b⟩ := p
      simp only [List.map_cons, List.nodup_cons] at hnd
      rcases List.mem_cons.1 h with h' | h'
      · rw [Prod.mk.injEq] at h'
        obtain ⟨rfl, rfl⟩ := h'
        simp [lookup?]
      · by_cases ha : a = k
        · subst ha
          exact absurd (List.mem_map_of_mem Prod.fst h') hnd.1
        · simp [lookup?, ha, ih hnd.2 h']

theorem mem_setKey_eq_key {β : Type} {m : List (String × β)} {k : String} {v : β}
    {x : String × β} (hnd : (m.map Prod.fst).Nodup) (h : x ∈ setKey m k v)
    (hx : x.1 = k) : x = (k, v) := by
  obtain ⟨x1, x2⟩ := x
  simp only at hx
  subst hx
  have h2 : lookup? (setKey m x1 v) x1 = some x2 :=
    mem_lookup? (keys_setKey_nodup hnd) h
  rw [lookup?_setKey_self] at h2
  simp only [Option.some.injEq] at h2
  simp [h2]

theorem lookup?_eraseKey_ne {β : Type} (m : List (String × β)) (k k' : String)
    (h : k' ≠ k) : lookup? (eraseKey m k) k' = lookup? m k' := by
  induction m with
  | nil => simp [eraseKey]
  | cons p rest ih =>
      obtain ⟨a, b⟩ := p
      by_cases ha : a = k
      · subst ha
        simp [eraseKey, lookup?, Ne.symm h]
      · simp only [eraseKey, if_neg ha, lookup?]
        by_cases ha' : a = k'
        · simp [ha']
        · simp [ha', ih]

theorem eraseKey_sublist {β : Type} (m : List (String × β)) (k : String) :
    List.Sublist (eraseKey m k) m := by
  induction m with
  | nil => simp [eraseKey]
  | cons p rest ih =>
      obtain ⟨a, b⟩ := p
      by_cases ha : a = k
      · simp only [eraseKey, if_pos ha]
        exact List.sublist_cons_self (a, b) rest
      · simpa [eraseKey, ha] using List.Sublist.cons₂ (a, b) ih

theorem mem_eraseKey {β : Type} {m : List (String × β)} {k : String}
    {x : String × β} (h : x ∈ eraseKey m k) : x ∈ m :=
  (eraseKey_sublist m k).mem h

theorem keys_eraseKey_nodup {β : Type} {m : List (String × β)} {k : String}
    (h : (m.map Prod.fst).Nodup) : ((eraseKey m k).map Prod.fst).Nodup :=
  ((eraseKey_sublist m k).map Prod.fst).nodup h

theorem lookup?_eraseKey_self {β : Type} {m : List (String × β)} {k : String}
    (hnd : (m.map Prod.fst).Nodup) : lookup? (eraseKey m k) k = none := by
  induction m with
  | nil => simp [eraseKey, lookup?]
  | cons p rest ih =>
      obtain ⟨a, b⟩ := p
      simp only [List.map_cons, List.nodup_cons] at hnd
      by_cases ha : a = k
      · subst ha
        cases hfind : lookup? rest a with
        | none => simpa [eraseKey] using hfind
        | some w =>
            exact absurd (List.mem_map_of_mem Prod.fst (lookup?_mem hfind)) hnd.1
      · simp [eraseKey, ha, lookup?, ih hnd.2]

theorem isSome_lookup? {β : Type} (m : List (String × β)) (k : String) :
    (lookup? m k).isSome = true ↔ k ∈ m.map Prod.fst := by
  induction m with
  | nil => simp [lookup?]
  | cons p rest ih =>
      obtain ⟨a, b⟩ := p
      by_cases ha : a = k
      · subst ha; simp [lookup?]
      · simp [lookup?, ha, Ne.symm ha, ih]

/-! Behaviour of `NewMessage` iterated from a fresh bus (claim C1). -/

theorem newMessageIds_state (opts : Options) (name : String) (payloads : Nat → Payload) :
    ∀ n : Nat,
      ((NewMessageBus opts).newMessageIds name payloads n).1
          = (List.range n).map (fun k => k % U64) ∧
      ((NewMessageBus opts).newMessageIds name payloads n).2.topics
          = if n = 0 then [] else [(name, { Name := name, Sequence := n % U64 })]
  | 0 => by simp [MessageBus.newMessageIds, NewMessageBus]
  | n + 1 => by
      obtain ⟨ih1, ih2⟩ := newMessageIds_state opts name payloads n
      by_cases hn : n = 0
      · subst hn
        simp only [MessageBus.newMessageIds, MessageBus.NewTopic, MessageBus.NewMessage,
          ih1, ih2, if_pos rfl]
        simp [lookup?, setKey, List.range_succ, Nat.mod_add_mod]
      · simp only [MessageBus.newMessageIds, MessageBus.NewTopic, MessageBus.NewMessage,
          ih1, ih2, if_neg hn]
        simp [lookup?, setKey, List.range_succ, Nat.mod_add_mod, hn, ih2]

/-- C1: each call to `NewMessage(topic, payload)` returns a message whose
`ID` equals the topic's sequence counter at the moment of the call and
increments that counter by exactly one (64-bit wrap); consequently, for a
sequence of `n ≤ 2^64` calls on a single topic starting from creation,
the assigned ids are `List.range n = [0, 1, ..., n-1]`, strictly
increasing and contiguous from 0. -/
theorem newMessage_sequence_spec :
    (∀ (mb : MessageBus) (t : Topic) (p : Payload),
        ((mb.NewMessage t p).1).ID = t.Sequence ∧
        lookup? ((mb.NewMessage t p).2.2).topics t.Name
          = some { Name := t.Name, Sequence := (t.Sequence + 1) % U64 }) ∧
    (∀ (opts : Options) (name : String) (payloads : Nat → Payload) (n : Nat),
        n ≤ U64 →
        ((NewMessageBus opts).newMessageIds name payloads n).1 = List.range n) := by
  constructor
  · intro mb t p
    refine ⟨rfl, ?_⟩
    simp [MessageBus.NewMessage, lookup?_setKey_self]
  · intro opts name payloads n hn
    rw [(newMessageIds_state opts name payloads n).1]
    have : ∀ k ∈ List.range n, k % U64 = k := by
      intro k hk
      exact Nat.mod_eq_of_lt (lt_of_lt_of_le (List.mem_range.1 hk) hn)
    calc (List.range n).map (fun k => k % U64)
        = (List.range n).map id := List.map_congr_left this
      _ = List.range n := List.map_id _

/-- Witness for C1 at a concrete input: three `NewMessage` calls on a
fresh topic assign ids 0, 1, 2. -/
theorem newMessage_sequence_spec_witness :
    (3 : Nat) ≤ U64 ∧
    ((NewMessageBus ⟨false, 4⟩).newMessageIds "foo" (fun _ => []) 3).1 = List.range 3 :=
  ⟨by decide, newMessage_sequence_spec.2 ⟨false, 4⟩ "foo" (fun _ => []) 3 (by decide)⟩

/-! Frame lemmas: which state fields each broker operation can touch. -/

theorem NewTopic_frame (mb : MessageBus) (s : String) :
    ((mb.NewTopic s).2).queues = mb.queues ∧
    ((mb.NewTopic s).2).listeners = mb.listeners ∧
    ((mb.NewTopic s).2).chans = mb.chans ∧
    ((mb.NewTopic s).2).delivered = mb.delivered ∧
    ((mb.NewTopic s).2).panicked = mb.panicked ∧
    ((mb.NewTopic s).2).withMetrics = mb.withMetrics ∧
    ((mb.NewTopic s).2).maxQueueSize = mb.maxQueueSize ∧
    (((mb.NewTopic s).2).topics = mb.topics ∨
      ((mb.NewTopic s).2).topics = setKey mb.topics s { Name := s, Sequence := 0 }) := by
  unfold MessageBus.NewTopic
  cases h : lookup? mb.topics s <;> simp [h]

theorem NewMessage_frame (mb : MessageBus) (t : Topic) (p : Payload) :
    ((mb.NewMessage t p).2.2).queues = mb.queues ∧
    ((mb.NewMessage t p).2.2).listeners = mb.listeners ∧
    ((mb.NewMessage t p).2.2).chans = mb.chans ∧
    ((mb.NewMessage t p).2.2).delivered = mb.delivered ∧
    ((mb.NewMessage t p).2.2).panicked = mb.panicked ∧
    ((mb.NewMessage t p).2.2).withMetrics = mb.withMetrics ∧
    ((mb.NewMessage t p).2.2).maxQueueSize = mb.maxQueueSize ∧
    ((mb.NewMessage t p).2.2).topics
      = setKey mb.topics t.Name { t with Sequence := (t.Sequence + 1) % U64 } := by
  unfold MessageBus.NewMessage
  simp

theorem NotifyAll_frame (mb : MessageBus) (m : Message) (ready : String → Bool) :
    (mb.NotifyAll m ready).topics = mb.topics ∧
    (mb.NotifyAll m ready).queues = mb.queues ∧
    (mb.NotifyAll m ready).listeners = mb.listeners ∧
    (mb.NotifyAll m ready).chans = mb.chans ∧
    (mb.NotifyAll m ready).panicked = mb.panicked ∧
    (mb.NotifyAll m ready).withMetrics = mb.withMetrics ∧
    (mb.NotifyAll m ready).maxQueueSize = mb.maxQueueSize := by
  unfold MessageBus.NotifyAll
  cases h : lookup? mb.listeners m.Topic <;> simp [h]

theorem Put_frame (mb : MessageBus) (m : Message) (ready : String → Bool) :
    (mb.Put m ready).topics = mb.topics ∧
    (mb.Put m ready).listeners = mb.listeners ∧
    (mb.Put m ready).chans = mb.chans ∧
    (mb.Put m ready).panicked = mb.panicked ∧
    (mb.Put m ready).withMetrics = mb.withMetrics ∧
    (mb.Put m ready).maxQueueSize = mb.maxQueueSize ∧
    (mb.Put m ready).queues
      = setKey mb.queues m.Topic
          ((match lookup? mb.queues m.Topic with
            | some q => q
            | none => { maxlen := mb.maxQueueSize, items := [] }).Push m) := by
  unfold MessageBus.Put
  refine ⟨?_, ?_, ?_, ?_, ?_, ?_, ?_⟩ <;>
    simp [NotifyAll_frame]

theorem Get_frame (mb : MessageBus) (t : Topic) :
    ((mb.Get t).2).topics = mb.topics ∧
    ((mb.Get t).2).listeners = mb.listeners ∧
    ((mb.Get t).2).chans = mb.chans ∧
    ((mb.Get t).2).delivered = mb.delivered ∧
    ((mb.Get t).2).panicked = mb.panicked ∧
    ((mb.Get t).2).withMetrics = mb.withMetrics ∧
    ((mb.Get t).2).maxQueueSize = mb.maxQueueSize ∧
    (((mb.Get t).2).queues = mb.queues ∨
      (∃ q m q', lookup? mb.queues t.Name = some q ∧ q.Pop = (some m, q') ∧
        ((mb.Get t).2).queues = setKey mb.queues t.Name q')) := by
  unfold MessageBus.Get
  cases h : lookup? mb.queues t.Name with
  | none => simp [h]
  | some q =>
      cases hp : q.Pop with
      | mk om q' =>
          cases om with
          | none => simp [h, hp]
          | some m =>
              refine ⟨by simp [h, hp], by simp [h, hp], by simp [h, hp], by simp [h, hp],
                by simp [h, hp], by simp [h, hp], by simp [h, hp],
                Or.inr ⟨q, m, q', rfl, hp, by simp [h, hp]⟩⟩

theorem Subscribe_frame (mb : MessageBus) (id topic : String) :
    ((mb.Subscribe id topic).2).queues = mb.queues ∧
    ((mb.Subscribe id topic).2).delivered = mb.delivered ∧
    ((mb.Subscribe id topic).2).panicked = mb.panicked ∧
    ((mb.Subscribe id topic).2).withMetrics = mb.withMetrics ∧
    ((mb.Subscribe id topic).2).maxQueueSize = mb.maxQueueSize ∧
    (((mb.Subscribe id topic).2).chans = mb.chans ∨
      ((mb.Subscribe id topic).2).chans = mb.chans ++ [{ cap := 0, closed := false }]) := by
  unfold MessageBus.Subscribe MessageBus.gaugeInc
  by_cases hw : mb.withMetrics = true <;>
  cases h1 : lookup? mb.topics topic with
  | none =>
      cases h2 : lookup? mb.listeners topic with
      | none => simp [h1, h2, hw, NewListeners, Listeners.Exists, Listeners.Add, lookup?]
      | some ls =>
          by_cases h3 : ls.Exists id = true <;> simp [h1, h2, h3, hw]
  | some t =>
      cases h2 : lookup? mb.listeners t.Name with
      | none => simp [h1, h2, hw, NewListeners, Listeners.Exists, Listeners.Add, lookup?]
      | some ls =>
          by_cases h3 : ls.Exists id = true <;> simp [h1, h2, h3, hw]

theorem Unsubscribe_frame (mb : MessageBus) (id topic : String) :
    (mb.Unsubscribe id topic).topics = mb.topics ∧
    (mb.Unsubscribe id topic).queues = mb.queues ∧
    (mb.Unsubscribe id topic).delivered = mb.delivered ∧
    (mb.Unsubscribe id topic).withMetrics = mb.withMetrics ∧
    (mb.Unsubscribe id topic).maxQueueSize = mb.maxQueueSize ∧
    ((mb.Unsubscribe id topic).chans = mb.chans ∨
      (∃ ch c, mb.chans[ch]? = some c ∧
        (mb.Unsubscribe id topic).chans = mb.chans.set ch { c with closed := true })) := by
  unfold MessageBus.Unsubscribe MessageBus.gaugeDec MessageBus.closeChan
  by_cases hw : mb.withMetrics = true <;>
  cases h1 : lookup? mb.topics topic with
  | none => simp [h1, hw]
  | some t =>
      cases h2 : lookup? mb.listeners t.Name with
      | none => simp [h1, h2, hw]
      | some ls =>
          by_cases h3 : ls.Exists id = true
          · cases h4 : (ls.Remove id).1 with
            | none => simp [h1, h2, h3, h4, hw]
            | some ch =>
                cases h5 : mb.chans[ch]? with
                | none => simp [h1, h2, h3, h4, h5, hw]
                | some c =>
                    by_cases h6 : c.closed = true
                    · simp [h1, h2, h3, h4, h5, h6, hw]
                    · refine ⟨by simp [h1, h2, h3, h4, h5, h6, hw],
                        by simp [h1, h2, h3, h4, h5, h6, hw],
                        by simp [h1, h2, h3, h4, h5, h6, hw],
                        by simp [h1, h2, h3, h4, h5, h6, hw],
                        by simp [h1, h2, h3, h4, h5, h6, hw], Or.inr ⟨ch, c, h5, ?_⟩⟩
                      simp [h1, h2, h3, h4, h5, h6, hw]
          · simp [h1, h2, h3, hw]

theorem setKey_setKey {β : Type} (m : List (String × β)) (k : String) (v w : β) :
    setKey (setKey m k v) k w = setKey m k w := by
  induction m with
  | nil => simp [setKey]
  | cons p rest ih =>
      obtain ⟨a, b⟩ := p
      by_cases ha : a = k
      · simp [setKey, ha]
      · simp [setKey, ha, ih]

theorem gaugeInc_frame (mb : MessageBus) :
    (mb.gaugeInc).topics = mb.topics ∧ (mb.gaugeInc).queues = mb.queues ∧
    (mb.gaugeInc).listeners = mb.listeners ∧ (mb.gaugeInc).chans = mb.chans ∧
    (mb.gaugeInc).delivered = mb.delivered ∧ (mb.gaugeInc).panicked = mb.panicked ∧
    (mb.gaugeInc).withMetrics = mb.withMetrics ∧
    (mb.gaugeInc).maxQueueSize = mb.maxQueueSize := by
  unfold MessageBus.gaugeInc
  split <;> simp

theorem gaugeDec_frame (mb : MessageBus) :
    (mb.gaugeDec).topics = mb.topics ∧ (mb.gaugeDec).queues = mb.queues ∧
    (mb.gaugeDec).listeners = mb.listeners ∧ (mb.gaugeDec).chans = mb.chans ∧
    (mb.gaugeDec).delivered = mb.delivered ∧ (mb.gaugeDec).panicked = mb.panicked ∧
    (mb.gaugeDec).withMetrics = mb.withMetrics ∧
    (mb.gaugeDec).maxQueueSize = mb.maxQueueSize := by
  unfold MessageBus.gaugeDec
  split <;> simp

/-! Branch equations for `Subscribe`. -/

theorem Subscribe_eq_already (mb : MessageBus) (id topic : String) (t : Topic)
    (ls : Listeners) (h1 : lookup? mb.topics topic = some t)
    (h2 : lookup? mb.listeners t.Name = some ls) (h3 : ls.Exists id = true) :
    mb.Subscribe id topic = (ls.Get id, mb.gaugeInc) := by
  unfold MessageBus.Subscribe
  simp [h1, h2, h3]

theorem Subscribe_eq_add (mb : MessageBus) (id topic : String) (t : Topic)
    (ls : Listeners) (h1 : lookup? mb.topics topic = some t)
    (h2 : lookup? mb.listeners t.Name = some ls) (h3 : ls.Exists id = false) :
    mb.Subscribe id topic
      = (some mb.chans.length,
         MessageBus.gaugeInc
           { mb with
               listeners := setKey mb.listeners t.Name (ls.Add id mb.chans.length).2
               chans := mb.chans ++ [{ cap := 0, closed := false }] }) := by
  unfold MessageBus.Subscribe
  simp [h1, h2, h3, Listeners.Add]

theorem Subscribe_eq_fresh_listeners (mb : MessageBus) (id topic : String) (t : Topic)
    (h1 : lookup? mb.topics topic = some t)
    (h2 : lookup? mb.listeners t.Name = none) :
    mb.Subscribe id topic
      = (some mb.chans.length,
         MessageBus.gaugeInc
           { mb with
               listeners := setKey mb.listeners t.Name (NewListeners.Add id mb.chans.length).2
               chans := mb.chans ++ [{ cap := 0, closed := false }] }) := by
  unfold MessageBus.Subscribe
  simp [h1, h2, NewListeners, Listeners.Exists, Listeners.Add, lookup?, setKey_setKey]

theorem Subscribe_eq_fresh_topic (mb : MessageBus) (id topic : String)
    (h1 : lookup? mb.topics topic = none) :
    mb.Subscribe id topic
      = MessageBus.Subscribe
          { mb with topics := setKey mb.topics topic { Name := topic, Sequence := 0 } }
          id topic := by
  conv in mb.Subscribe id topic => unfold MessageBus.Subscribe
  conv in MessageBus.Subscribe _ id topic => unfold MessageBus.Subscribe
  simp [h1, lookup?_setKey_self]

/-! Branch equations for `Unsubscribe`. -/

theorem Unsubscribe_eq_noop_topic (mb : MessageBus) (id topic : String)
    (h1 : lookup? mb.topics topic = none) : mb.Unsubscribe id topic = mb.gaugeDec := by
  unfold MessageBus.Unsubscribe
  simp [h1]

theorem Unsubscribe_eq_noop_listeners (mb : MessageBus) (id topic : String) (t : Topic)
    (h1 : lookup? mb.topics topic = some t) (h2 : lookup? mb.listeners t.Name = none) :
    mb.Unsubscribe id topic = mb.gaugeDec := by
  unfold MessageBus.Unsubscribe
  simp [h1, h2]

theorem Unsubscribe_eq_noop_id (mb : MessageBus) (id topic : String) (t : Topic)
    (ls : Listeners) (h1 : lookup? mb.topics topic = some t)
    (h2 : lookup? mb.listeners t.Name = some ls) (h3 : ls.Exists id = false) :
    mb.Unsubscribe id topic = mb.gaugeDec := by
  unfold MessageBus.Unsubscribe
  simp [h1, h2, h3]

theorem Unsubscribe_eq_remove (mb : MessageBus) (id topic : String) (t : Topic)
    (ls : Listeners) (ch : Nat) (h1 : lookup? mb.topics topic = some t)
    (h2 : lookup? mb.listeners t.Name = some ls) (h3 : ls.Exists id = true)
    (hch : lookup? ls.chs id = some ch) :
    mb.Unsubscribe id topic
      = MessageBus.gaugeDec
          (MessageBus.closeChan
            { mb with listeners := setKey mb.listeners t.Name (ls.Remove id).2 } ch) := by
  unfold MessageBus.Unsubscribe
  simp [h1, h2, h3, Listeners.Remove, hch]

theorem closeChan_eq (mb : MessageBus) (ch : Nat) (c : Chan)
    (h : mb.chans[ch]? = some c) (hc : c.closed = false) :
    mb.closeChan ch = { mb with chans := mb.chans.set ch { c with closed := true } } := by
  unfold MessageBus.closeChan
  simp [h, hc]

theorem ServeHTTPPost_frame (mb : MessageBus) (path : String) (body : Payload)
    (ready : String → Bool) :
    ((mb.ServeHTTPPost path body ready).2).listeners = mb.listeners ∧
    ((mb.ServeHTTPPost path body ready).2).chans = mb.chans ∧
    ((mb.ServeHTTPPost path body ready).2).panicked = mb.panicked ∧
    ((mb.ServeHTTPPost path body ready).2).withMetrics = mb.withMetrics ∧
    ((mb.ServeHTTPPost path body ready).2).maxQueueSize = mb.maxQueueSize := by
  obtain ⟨-, nl, nc, -, np, nw, nm, -⟩ := NewTopic_frame mb (trimSlashes path)
  obtain ⟨-, ml, mc, -, mp, mw, mm, -⟩ :=
    NewMessage_frame (mb.NewTopic (trimSlashes path)).2 (mb.NewTopic (trimSlashes path)).1 body
  obtain ⟨-, pl, pc, pp, pw, pm, -⟩ :=
    Put_frame ((mb.NewTopic (trimSlashes path)).2.NewMessage (mb.NewTopic (trimSlashes path)).1
      body).2.2
      (((mb.NewTopic (trimSlashes path)).2.NewMessage (mb.NewTopic (trimSlashes path)).1 body).1)
      ready
  unfold MessageBus.ServeHTTPPost MessageBus.reqInc
  by_cases hw : mb.withMetrics = true <;>
    simp [pl, pc, pp, pw, pm, ml, mc, mp, mw, mm, nl, nc, np, nw, nm, hw]

theorem pullOnce_frame (mb : MessageBus) (name : String) :
    ((mb.pullOnce name).2).listeners = mb.listeners ∧
    ((mb.pullOnce name).2).chans = mb.chans ∧
    ((mb.pullOnce name).2).panicked = mb.panicked ∧
    ((mb.pullOnce name).2).withMetrics = mb.withMetrics ∧
    ((mb.pullOnce name).2).maxQueueSize = mb.maxQueueSize := by
  obtain ⟨-, nl, nc, -, np, nw, nm, -⟩ := NewTopic_frame mb name
  obtain ⟨-, gl, gc, -, gp, gw, gm, -⟩ :=
    Get_frame (mb.NewTopic name).2 (mb.NewTopic name).1
  unfold MessageBus.pullOnce
  simp [gl, gc, gp, gw, gm, nl, nc, np, nw, nm]

/-- Invariance of a predicate along a trace of public operations. -/
theorem foldl_invariant {P : MessageBus → Prop}
    (hstep : ∀ mb op, P mb → P (applyOp mb op)) :
    ∀ (ops : List Op) (mb : MessageBus), P mb → P (ops.foldl applyOp mb)
  | [], _, h => h
  | op :: rest, mb, h => foldl_invariant hstep rest (applyOp mb op) (hstep mb op h)

theorem chans_cap_zero_step (mb : MessageBus) (op : Op)
    (h : ∀ c ∈ mb.chans, c.cap = 0) : ∀ c ∈ (applyOp mb op).chans, c.cap = 0 := by
  cases op with
  | subscribe id topic =>
      intro c hc
      simp only [applyOp] at hc
      rcases (Subscribe_frame mb id topic).2.2.2.2.2 with he | he
      · exact h c (he ▸ hc)
      · rw [he] at hc
        rcases List.mem_append.1 hc with hc' | hc'
        · exact h c hc'
        · simp only [List.mem_singleton] at hc'
          simp [hc']
  | unsubscribe id topic =>
      intro c hc
      simp only [applyOp] at hc
      rcases (Unsubscribe_frame mb id topic).2.2.2.2.2 with he | ⟨ch, c0, hget, he⟩
      · exact h c (he ▸ hc)
      · rw [he] at hc
        rcases List.mem_or_eq_of_mem_set hc with hc' | hc'
        · exact h c hc'
        · have := h c0 (List.getElem?_mem hget)
          simp [hc', this]
  | publish path body ready =>
      intro c hc
      simp only [applyOp] at hc
      rw [(ServeHTTPPost_frame mb path body ready).2.1] at hc
      exact h c hc
  | pull topic =>
      intro c hc
      simp only [applyOp] at hc
      rw [(pullOnce_frame mb topic).2.1] at hc
      exact h c hc
  | newTopic topic =>
      intro c hc
      simp only [applyOp] at hc
      rw [(NewTopic_frame mb topic).2.2.1] at hc
      exact h c hc

/-! Preservation of `busWF` along traces (claim C10). -/

theorem busWF_frame_eq (mb1 mb2 : MessageBus) (ht : mb1.topics = mb2.topics)
    (hl : mb1.listeners = mb2.listeners) (hc : mb1.chans = mb2.chans)
    (hp : mb1.panicked = mb2.panicked) (h : busWF mb2) : busWF mb1 := by
  unfold busWF TopicsNamed at h ⊢
  rw [ht, hl, hc, hp]
  exact h

theorem mem_eraseKey_key_ne {β : Type} {m : List (String × β)} {k : String}
    {x : String × β} (hnd : (m.map Prod.fst).Nodup) (h : x ∈ eraseKey m k) : x.1 ≠ k := by
  intro hk
  have hx : (x.1, x.2) ∈ eraseKey m k := by
    rw [Prod.mk.eta]
    exact h
  have h2 := mem_lookup? (keys_eraseKey_nodup hnd) hx
  rw [hk, lookup?_eraseKey_self hnd] at h2
  exact Option.noConfusion h2

theorem openChan_append (chans l : List Chan) (ch : Nat)
    (h : openChan chans ch = true) : openChan (chans ++ l) ch = true := by
  unfold openChan at h ⊢
  cases hc : chans[ch]? with
  | none => rw [hc] at h; simp at h
  | some c =>
      rw [hc] at h
      have hlen : ch < chans.length := (List.getElem?_eq_some.1 hc).1
      rw [List.getElem?_append_left hlen, hc]
      exact h

theorem openChan_lt (chans : List Chan) (ch : Nat) (h : openChan chans ch = true) :
    ch < chans.length := by
  unfold openChan at h
  cases hc : chans[ch]? with
  | none => rw [hc] at h; simp at h
  | some c => exact (List.getElem?_eq_some.1 hc).1

theorem openChan_concat (chans : List Chan) :
    openChan (chans ++ [{ cap := 0, closed := false }]) chans.length = true := by
  unfold openChan
  rw [List.getElem?_concat_length]
  rfl

theorem openChan_set_ne (chans : List Chan) (ch ch' : Nat) (c : Chan) (h : ch' ≠ ch) :
    openChan (chans.set ch c) ch' = openChan chans ch' := by
  unfold openChan
  rw [List.getElem?_set_ne (fun he => h he.symm)]

theorem ListenersWF_add (chans : List Chan) (ls : Listeners) (id : String)
    (h : ListenersWF chans ls) :
    ListenersWF (chans ++ [{ cap := 0, closed := false }])
      ((ls.Add id chans.length).2) := by
  obtain ⟨hids, hchs, hic, hci, hopen⟩ := h
  refine ⟨keys_setKey_nodup hids, keys_setKey_nodup hchs, ?_, ?_, ?_⟩
  · intro p hp
    by_cases hpid : p.1 = id
    · rw [hpid]
      show (lookup? (setKey ls.chs id chans.length) id).isSome = true
      rw [lookup?_setKey_self]
      rfl
    · rcases mem_setKey hp with he | hold
      · exact absurd (congrArg Prod.fst he) hpid
      · show (lookup? (setKey ls.chs id chans.length) p.1).isSome = true
        rw [lookup?_setKey_ne _ _ _ _ hpid]
        exact hic p hold
  · intro p hp
    by_cases hpid : p.1 = id
    · rw [hpid]
      show (lookup? (setKey ls.ids id true) id).isSome = true
      rw [lookup?_setKey_self]
      rfl
    · rcases mem_setKey hp with he | hold
      · exact absurd (congrArg Prod.fst he) hpid
      · show (lookup? (setKey ls.ids id true) p.1).isSome = true
        rw [lookup?_setKey_ne _ _ _ _ hpid]
        exact hci p hold
  · intro p hp
    rcases mem_setKey hp with he | hold
    · rw [he]
      exact openChan_concat chans
    · exact openChan_append chans _ p.2 (hopen p hold)

theorem ListenersWF_append (chans l : List Chan) (x : Listeners)
    (h : ListenersWF chans x) : ListenersWF (chans ++ l) x := by
  obtain ⟨h1, h2, h3, h4, h5⟩ := h
  exact ⟨h1, h2, h3, h4, fun p hp => openChan_append chans l p.2 (h5 p hp)⟩

theorem lookup?_isSome_setKey {β : Type} (m : List (String × β)) (k : String) (v : β)
    (k' : String) (h : (lookup? m k').isSome = true) :
    (lookup? (setKey m k v) k').isSome = true := by
  by_cases hk : k' = k
  · subst hk
    rw [lookup?_setKey_self]
    rfl
  · rw [lookup?_setKey_ne _ _ _ _ hk]
    exact h

theorem busWF_topics_setKey (mb : MessageBus) (s : String) (t : Topic)
    (hname : t.Name = s) (hwf : busWF mb) :
    busWF { mb with topics := setKey mb.topics s t } := by
  obtain ⟨hpan, hnamed, hlt, hnd, hlswfall, hinj⟩ := hwf
  refine ⟨hpan, ?_, ?_, hnd, hlswfall, hinj⟩
  · intro p hp
    rcases mem_setKey hp with rfl | hold
    · exact hname
    · exact hnamed p hold
  · intro p hp
    exact lookup?_isSome_setKey _ _ _ _ (hlt p hp)

theorem busWF_add_listener (mb : MessageBus) (tn id : String) (ls : Listeners)
    (hwf : busWF mb)
    (hlswf : ListenersWF mb.chans ls)
    (hself : ∀ a ∈ ls.chs, ∀ b ∈ ls.chs, a.2 = b.2 → a.1 = b.1)
    (hcoll : ∀ a ∈ ls.chs, ∀ q ∈ mb.listeners, ∀ b ∈ q.2.chs, a.2 = b.2 →
      q.1 = tn ∧ a.1 = b.1)
    (htn : (lookup? mb.topics tn).isSome = true) :
    busWF { mb with
        listeners := setKey mb.listeners tn (ls.Add id mb.chans.length).2
        chans := mb.chans ++ [{ cap := 0, closed := false }] } := by
  obtain ⟨hpan, hnamed, hlt, hnd, hlswfall, hinj⟩ := hwf
  have hnd' : ((setKey mb.listeners tn (ls.Add id mb.chans.length).2).map Prod.fst).Nodup :=
    keys_setKey_nodup hnd
  refine ⟨hpan, hnamed, ?_, hnd', ?_, ?_⟩
  · intro p hp
    rcases mem_setKey hp with rfl | hold
    · exact htn
    · exact hlt p hold
  · intro p hp
    rcases mem_setKey hp with rfl | hold
    · exact ListenersWF_add mb.chans ls id hlswf
    · exact ListenersWF_append mb.chans _ p.2 (hlswfall p hold)
  · intro p hp q hq a ha b hb hab
    have hopen_lt : ∀ r ∈ mb.listeners, ∀ x ∈ r.2.chs, x.2 < mb.chans.length := by
      intro r hr x hx
      exact openChan_lt mb.chans x.2 ((hlswfall r hr).2.2.2.2 x hx)
    have hls_lt : ∀ x ∈ ls.chs, x.2 < mb.chans.length := by
      intro x hx
      exact openChan_lt mb.chans x.2 (hlswf.2.2.2.2 x hx)
    by_cases hp1 : p.1 = tn
    · have hpnew := mem_setKey_eq_key hnd hp hp1
      by_cases hq1 : q.1 = tn
      · have hqnew := mem_setKey_eq_key hnd hq hq1
        subst hpnew
        subst hqnew
        refine ⟨rfl, ?_⟩
        rcases mem_setKey ha with rfl | haold
        · rcases mem_setKey hb with rfl | hbold
          · rfl
          · exact absurd (hab ▸ hls_lt b hbold) (by simp)
        · rcases mem_setKey hb with rfl | hbold
          · exact absurd (hab.symm ▸ hls_lt a haold) (by simp)
          · exact hself a haold b hbold hab
      · subst hpnew
        have hqold : q ∈ mb.listeners := by
          rcases mem_setKey hq with rfl | h
          · exact absurd rfl hq1
          · exact h
        rcases mem_setKey ha with rfl | haold
        · exact absurd (hab ▸ hopen_lt q hqold b hb) (by simp)
        · exact absurd (hcoll a haold q hqold b hb hab).1 hq1
    · have hpold : p ∈ mb.listeners := by
        rcases mem_setKey hp with rfl | h
        · exact absurd rfl hp1
        · exact h
      by_cases hq1 : q.1 = tn
      · have hqnew := mem_setKey_eq_key hnd hq hq1
        subst hqnew
        rcases mem_setKey hb with rfl | hbold
        · exact absurd (hab.symm ▸ hopen_lt p hpold a ha) (by simp)
        · have := hcoll b hbold p hpold a ha hab.symm
          exact absurd this.1 hp1
      · have hqold : q ∈ mb.listeners := by
          rcases mem_setKey hq with rfl | h
          · exact absurd rfl hq1
          · exact h
        exact hinj p hpold q hqold a ha b hb hab

theorem busWF_gaugeInc (mb : MessageBus) (h : busWF mb) : busWF mb.gaugeInc := by
  obtain ⟨ht, -, hl, hc, -, hp, -, -⟩ := gaugeInc_frame mb
  exact busWF_frame_eq _ mb ht hl hc hp h

theorem busWF_gaugeDec (mb : MessageBus) (h : busWF mb) : busWF mb.gaugeDec := by
  obtain ⟨ht, -, hl, hc, -, hp, -, -⟩ := gaugeDec_frame mb
  exact busWF_frame_eq _ mb ht hl hc hp h

theorem NewListeners_WF (chans : List Chan) : ListenersWF chans NewListeners := by
  unfold ListenersWF NewListeners
  simp

theorem busWF_subscribe_some (mb : MessageBus) (id topic : String) (t : Topic)
    (hwf : busWF mb) (h1 : lookup? mb.topics topic = some t) :
    busWF ((mb.Subscribe id topic).2) := by
  have htn : (lookup? mb.topics t.Name).isSome = true := by
    rw [hwf.2.1 (topic, t) (lookup?_mem h1)]
    rw [h1]
    rfl
  cases h2 : lookup? mb.listeners t.Name with
  | some ls =>
      by_cases h3 : ls.Exists id = true
      · rw [Subscribe_eq_already mb id topic t ls h1 h2 h3]
        exact busWF_gaugeInc mb hwf
      · have h3f : ls.Exists id = false := by simpa using h3
        rw [Subscribe_eq_add mb id topic t ls h1 h2 h3f]
        have hmem : (t.Name, ls) ∈ mb.listeners := lookup?_mem h2
        refine busWF_gaugeInc _ (busWF_add_listener mb t.Name id ls hwf
          (hwf.2.2.2.2.1 _ hmem) ?_ ?_ htn)
        · intro a ha b hb hab
          exact (hwf.2.2.2.2.2 _ hmem _ hmem a ha b hb hab).2
        · intro a ha q hq b hb hab
          have := hwf.2.2.2.2.2 _ hmem q hq a ha b hb hab
          exact ⟨this.1.symm, this.2⟩
  | none =>
      rw [Subscribe_eq_fresh_listeners mb id topic t h1 h2]
      refine busWF_gaugeInc _ (busWF_add_listener mb t.Name id NewListeners hwf
        (NewListeners_WF mb.chans) ?_ ?_ htn)
      · intro a ha
        simp [NewListeners] at ha
      · intro a ha
        simp [NewListeners] at ha

theorem busWF_subscribe (mb : MessageBus) (id topic : String) (hwf : busWF mb) :
    busWF ((mb.Subscribe id topic).2) := by
  cases h1 : lookup? mb.topics topic with
  | some t => exact busWF_subscribe_some mb id topic t hwf h1
  | none =>
      rw [Subscribe_eq_fresh_topic mb id topic h1]
      exact busWF_subscribe_some _ id topic { Name := topic, Sequence := 0 }
        (busWF_topics_setKey mb topic { Name := topic, Sequence := 0 } rfl hwf)
        (lookup?_setKey_self _ _ _)

theorem busWF_unsubscribe (mb : MessageBus) (id topic : String) (hwf : busWF mb) :
    busWF (mb.Unsubscribe id topic) := by
  cases h1 : lookup? mb.topics topic with
  | none =>
      rw [Unsubscribe_eq_noop_topic mb id topic h1]
      exact busWF_gaugeDec mb hwf
  | some t =>
      cases h2 : lookup? mb.listeners t.Name with
      | none =>
          rw [Unsubscribe_eq_noop_listeners mb id topic t h1 h2]
          exact busWF_gaugeDec mb hwf
      | some ls =>
          by_cases h3 : ls.Exists id = true
          · obtain ⟨hpan, hnamed, hlt, hnd, hlswfall, hinj⟩ := hwf
            have hmem : (t.Name, ls) ∈ mb.listeners := lookup?_mem h2
            obtain ⟨hids, hchs, hic, hci, hopen⟩ := hlswfall _ hmem
            have h3' : (lookup? ls.ids id).isSome = true := h3
            obtain ⟨b0, hb0⟩ := Option.isSome_iff_exists.1 h3'
            obtain ⟨ch, hch⟩ := Option.isSome_iff_exists.1 (hic (id, b0) (lookup?_mem hb0))
            have hchmem : (id, ch) ∈ ls.chs := lookup?_mem hch
            have hopench : openChan mb.chans ch = true := hopen _ hchmem
            obtain ⟨c, hc⟩ : ∃ c, mb.chans[ch]? = some c := by
              unfold openChan at hopench
              cases hcc : mb.chans[ch]? with
              | none => rw [hcc] at hopench; simp at hopench
              | some c => exact ⟨c, rfl⟩
            have hcop : c.closed = false := by
              unfold openChan at hopench
              rw [hc] at hopench
              simpa using hopench
            rw [Unsubscribe_eq_remove mb id topic t ls ch h1 h2 h3 hch]
            set mbR : MessageBus :=
              { mb with listeners := setKey mb.listeners t.Name (ls.Remove id).2 } with hR
            have hcR : mbR.chans[ch]? = some c := hc
            rw [closeChan_eq mbR ch c hcR hcop]
            refine busWF_gaugeDec _ ?_
            have hnd' : ((setKey mb.listeners t.Name (ls.Remove id).2).map Prod.fst).Nodup :=
              keys_setKey_nodup hnd
            refine ⟨hpan, hnamed, ?_, hnd', ?_, ?_⟩
            · intro p hp
              rcases mem_setKey hp with rfl | hold
              · exact hlt (t.Name, ls) hmem
              · exact hlt p hold
            · intro p hp
              rcases mem_setKey hp with rfl | hold
              · refine ⟨keys_eraseKey_nodup hids, keys_eraseKey_nodup hchs, ?_, ?_, ?_⟩
                · intro x hx
                  have hxid := mem_eraseKey_key_ne hids hx
                  show (lookup? (eraseKey ls.chs id) x.1).isSome = true
                  rw [lookup?_eraseKey_ne _ _ _ hxid]
                  exact hic x (mem_eraseKey hx)
                · intro x hx
                  have hxid := mem_eraseKey_key_ne hchs hx
                  show (lookup? (eraseKey ls.ids id) x.1).isSome = true
                  rw [lookup?_eraseKey_ne _ _ _ hxid]
                  exact hci x (mem_eraseKey hx)
                · intro x hx
                  have hxch : x.2 ≠ ch := by
                    intro hxc
                    have := hinj _ hmem _ hmem (id, ch) hchmem x (mem_eraseKey hx)
                      (by rw [hxc])
                    exact mem_eraseKey_key_ne hchs hx this.2.symm
                  show openChan (mbR.chans.set ch { c with closed := true }) x.2 = true
                  have : mbR.chans = mb.chans := rfl
                  rw [this, openChan_set_ne mb.chans ch x.2 _ hxch]
                  exact hopen x (mem_eraseKey hx)
              · have hother : ∀ x ∈ p.2.chs, x.2 ≠ ch := by
                  intro x hx hxc
                  have hne : p.1 ≠ t.Name := by
                    intro hp1
                    have := mem_setKey_eq_key hnd hp hp1
                    rw [this] at hold
                    have h2' := mem_lookup? hnd hold
                    rw [h2] at h2'
                    have hlseq : ls = (ls.Remove id).2 := Option.some.inj h2'
                    have hnone : lookup? (ls.Remove id).2.chs id = none :=
                      lookup?_eraseKey_self hchs
                    rw [← hlseq] at hnone
                    rw [hch] at hnone
                    exact Option.noConfusion hnone
                  have := hinj _ hmem p hold (id, ch) hchmem x hx (by rw [hxc])
                  exact hne this.1.symm
                obtain ⟨g1, g2, g3, g4, g5⟩ := hlswfall p hold
                refine ⟨g1, g2, g3, g4, ?_⟩
                intro x hx
                show openChan (mbR.chans.set ch { c with closed := true }) x.2 = true
                have heq : mbR.chans = mb.chans := rfl
                rw [heq, openChan_set_ne mb.chans ch x.2 _ (hother x hx)]
                exact g5 x hx
            · intro p hp q hq a ha b hb hab
              have map1 : ∀ r, r ∈ setKey mb.listeners t.Name (ls.Remove id).2 →
                  ∀ x ∈ r.2.chs, ∃ r0, r0 ∈ mb.listeners ∧ r0.1 = r.1 ∧ x ∈ r0.2.chs := by
                intro r hr x hx
                by_cases hr1 : r.1 = t.Name
                · have hrnew := mem_setKey_eq_key hnd hr hr1
                  subst hrnew
                  exact ⟨(t.Name, ls), hmem, rfl, mem_eraseKey hx⟩
                · rcases mem_setKey hr with rfl | hold
                  · exact absurd rfl hr1
                  · exact ⟨r, hold, rfl, hx⟩
              obtain ⟨p0, hp0, hpk, hpa⟩ := map1 p hp a ha
              obtain ⟨q0, hq0, hqk, hqb⟩ := map1 q hq b hb
              have := hinj p0 hp0 q0 hq0 a hpa b hqb hab
              exact ⟨by rw [← hpk, ← hqk]; exact this.1, this.2⟩
          · rw [Unsubscribe_eq_noop_id mb id topic t ls h1 h2 (by simpa using h3)]
            exact busWF_gaugeDec mb hwf

/-- C8 counterexample: the first `Subscribe` on a fresh bus allocates
exactly one channel and it is unbuffered — `make(chan Message)` with
capacity 0, not a configured buffer-length (the embedded `Options` from
`src/msgbus.go` carries no buffer-length at all). -/
theorem subscribe_channel_cap_cex :
    (((NewMessageBus ⟨false, 4⟩).Subscribe "a" "t").2).chans
      = [{ cap := 0, closed := false }] := by decide

/-- C8 amended: every outbound channel created for a subscriber is
unbuffered (capacity 0): the channel `Subscribe` creates for a
not-yet-subscribed id has capacity 0, and every channel a freshly
constructed bus ever allocates under any trace of public operations has
capacity 0, so a subscriber can have no messages outstanding in its
channel buffer — a fan-out send succeeds only when the subscriber is
concurrently ready to receive. -/
theorem subscribe_channel_unbuffered :
    (∀ (mb : MessageBus) (id topic : String),
        busWF mb → mb.subscribed id topic = false →
        ∃ ch, (mb.Subscribe id topic).1 = some ch ∧
          ((mb.Subscribe id topic).2).chans[ch]? = some { cap := 0, closed := false }) ∧
    (∀ (opts : Options) (ops : List Op), ∀ c ∈ (run opts ops).chans, c.cap = 0) := by
  constructor
  · intro mb id topic hwf hsub
    obtain ⟨-, hnamed, hlt, -, -, -⟩ := hwf
    unfold MessageBus.Subscribe MessageBus.gaugeInc
    cases h1 : lookup? mb.topics topic with
    | none =>
        cases h2 : lookup? mb.listeners topic with
        | none =>
            refine ⟨mb.chans.length, ?_⟩
            by_cases hw : mb.withMetrics = true <;>
              simp [h1, h2, hw, NewListeners, Listeners.Exists, Listeners.Add, lookup?,
                List.getElem?_concat_length]
        | some ls =>
            exact absurd (h1 ▸ hlt (topic, ls) (lookup?_mem h2)) (by simp)
    | some t =>
        have hname : t.Name = topic := hnamed (topic, t) (lookup?_mem h1)
        cases h2 : lookup? mb.listeners t.Name with
        | none =>
            refine ⟨mb.chans.length, ?_⟩
            by_cases hw : mb.withMetrics = true <;>
              simp [h1, h2, hw, NewListeners, Listeners.Exists, Listeners.Add, lookup?,
                List.getElem?_concat_length]
        | some ls =>
            have h3 : ls.Exists id = false := by
              unfold MessageBus.subscribed at hsub
              rw [h1] at hsub
              simpa [h2] using hsub
            refine ⟨mb.chans.length, ?_⟩
            by_cases hw : mb.withMetrics = true <;>
              simp [h1, h2, h3, hw, Listeners.Add, lookup?_setKey_self,
                List.getElem?_concat_length]
  · intro opts ops
    exact foldl_invariant (P := fun mb => ∀ c ∈ mb.chans, c.cap = 0)
      chans_cap_zero_step ops (NewMessageBus opts) (by simp [NewMessageBus])

/-- Witness for the C8 amended theorem: the channel allocated for the
first subscriber of a fresh bus is channel 0 with capacity 0. -/
theorem subscribe_channel_unbuffered_witness :
    busWF (NewMessageBus ⟨false, 4⟩) ∧
    (NewMessageBus ⟨false, 4⟩).subscribed "a" "t" = false ∧
    (∃ ch, ((NewMessageBus ⟨false, 4⟩).Subscribe "a" "t").1 = some ch ∧
      (((NewMessageBus ⟨false, 4⟩).Subscribe "a" "t").2).chans[ch]?
        = some { cap := 0, closed := false }) :=
  ⟨by decide, by decide,
    subscribe_channel_unbuffered.1 (NewMessageBus ⟨false, 4⟩) "a" "t" (by decide) (by decide)⟩

theorem subscribe_twice_of_topic_some (mb : MessageBus) (id topic : String) (t : Topic)
    (h1 : lookup? mb.topics topic = some t) :
    ((mb.Subscribe id topic).2.Subscribe id topic).1 = (mb.Subscribe id topic).1 ∧
    ((mb.Subscribe id topic).2.Subscribe id topic).2.topics
      = (mb.Subscribe id topic).2.topics ∧
    ((mb.Subscribe id topic).2.Subscribe id topic).2.listeners
      = (mb.Subscribe id topic).2.listeners ∧
    ((mb.Subscribe id topic).2.Subscribe id topic).2.chans
      = (mb.Subscribe id topic).2.chans := by
  cases h2 : lookup? mb.listeners t.Name with
  | some ls =>
      by_cases h3 : ls.Exists id = true
      · rw [Subscribe_eq_already mb id topic t ls h1 h2 h3]
        obtain ⟨git, -, gil, -, -, -, -, -⟩ := gaugeInc_frame mb
        rw [Subscribe_eq_already mb.gaugeInc id topic t ls (by rw [git]; exact h1)
          (by rw [gil]; exact h2) h3]
        obtain ⟨git2, -, gil2, gic2, -, -, -, -⟩ := gaugeInc_frame mb.gaugeInc
        exact ⟨rfl, git2, gil2, gic2⟩
      · have h3f : ls.Exists id = false := by simpa using h3
        rw [Subscribe_eq_add mb id topic t ls h1 h2 h3f]
        set mbA : MessageBus :=
          { mb with
              listeners := setKey mb.listeners t.Name (ls.Add id mb.chans.length).2
              chans := mb.chans ++ [{ cap := 0, closed := false }] } with hA
        obtain ⟨gat, -, gal, gac, -, -, -, -⟩ := gaugeInc_frame mbA
        have h1' : lookup? (mbA.gaugeInc).topics topic = some t := by rw [gat]; exact h1
        have h2' : lookup? (mbA.gaugeInc).listeners t.Name
            = some (ls.Add id mb.chans.length).2 := by
          rw [gal]; exact lookup?_setKey_self _ _ _
        have h3' : ((ls.Add id mb.chans.length).2).Exists id = true := by
          simp [Listeners.Add, Listeners.Exists, lookup?_setKey_self]
        rw [Subscribe_eq_already mbA.gaugeInc id topic t _ h1' h2' h3']
        obtain ⟨git2, -, gil2, gic2, -, -, -, -⟩ := gaugeInc_frame mbA.gaugeInc
        refine ⟨?_, by rw [git2, gat], by rw [gil2, gal], by rw [gic2, gac]⟩
        simp [Listeners.Add, Listeners.Get, lookup?_setKey_self]
  | none =>
      rw [Subscribe_eq_fresh_listeners mb id topic t h1 h2]
      set mbB : MessageBus :=
        { mb with
            listeners := setKey mb.listeners t.Name (NewListeners.Add id mb.chans.length).2
            chans := mb.chans ++ [{ cap := 0, closed := false }] } with hB
      obtain ⟨gbt, -, gbl, gbc, -, -, -, -⟩ := gaugeInc_frame mbB
      have h1' : lookup? (mbB.gaugeInc).topics topic = some t := by rw [gbt]; exact h1
      have h2' : lookup? (mbB.gaugeInc).listeners t.Name
          = some (NewListeners.Add id mb.chans.length).2 := by
        rw [gbl]; exact lookup?_setKey_self _ _ _
      have h3' : ((NewListeners.Add id mb.chans.length).2).Exists id = true := by
        simp [Listeners.Add, Listeners.Exists, NewListeners, lookup?_setKey_self]
      rw [Subscribe_eq_already mbB.gaugeInc id topic t _ h1' h2' h3']
      obtain ⟨git2, -, gil2, gic2, -, -, -, -⟩ := gaugeInc_frame mbB.gaugeInc
      refine ⟨?_, by rw [git2, gbt], by rw [gil2, gbl], by rw [gic2, gbc]⟩
      simp [Listeners.Add, Listeners.Get, NewListeners, lookup?_setKey_self]

/-- C6: `Subscribe` is idempotent — with no intervening `Unsubscribe`, a
second `Subscribe` with the same id and topic returns the same channel as
the first and leaves the topic registry, listener sets and channel store
exactly as the first call left them (only the gauge moves); and on a
well-formed bus where the id is not yet subscribed, the call registers
the topic, registers a listener set under it holding the id, and returns
a newly allocated channel. -/
theorem subscribe_idempotent :
    (∀ (mb : MessageBus) (id topic : String),
        ((mb.Subscribe id topic).2.Subscribe id topic).1 = (mb.Subscribe id topic).1 ∧
        ((mb.Subscribe id topic).2.Subscribe id topic).2.topics
          = (mb.Subscribe id topic).2.topics ∧
        ((mb.Subscribe id topic).2.Subscribe id topic).2.listeners
          = (mb.Subscribe id topic).2.listeners ∧
        ((mb.Subscribe id topic).2.Subscribe id topic).2.chans
          = (mb.Subscribe id topic).2.chans) ∧
    (∀ (mb : MessageBus) (id topic : String),
        busWF mb → mb.subscribed id topic = false →
        (mb.Subscribe id topic).1 = some mb.chans.length ∧
        ((mb.Subscribe id topic).2).chans
          = mb.chans ++ [{ cap := 0, closed := false }] ∧
        (∃ t, lookup? ((mb.Subscribe id topic).2).topics topic = some t) ∧
        (∃ ls, lookup? ((mb.Subscribe id topic).2).listeners topic = some ls ∧
          ls.Exists id = true ∧ ls.Get id = some mb.chans.length)) := by
  constructor
  · intro mb id topic
    cases h1 : lookup? mb.topics topic with
    | some t => exact subscribe_twice_of_topic_some mb id topic t h1
    | none =>
        rw [Subscribe_eq_fresh_topic mb id topic h1]
        exact subscribe_twice_of_topic_some _ id topic { Name := topic, Sequence := 0 }
          (lookup?_setKey_self _ _ _)
  · intro mb id topic hwf hsub
    obtain ⟨-, hnamed, hlt, -, -, -⟩ := hwf
    cases h1 : lookup? mb.topics topic with
    | some t =>
        have hname : t.Name = topic := hnamed (topic, t) (lookup?_mem h1)
        cases h2 : lookup? mb.listeners t.Name with
        | some ls =>
            have h3 : ls.Exists id = false := by
              unfold MessageBus.subscribed at hsub
              rw [h1] at hsub
              simpa [h2] using hsub
            rw [Subscribe_eq_add mb id topic t ls h1 h2 h3]
            set mbA : MessageBus :=
              { mb with
                  listeners := setKey mb.listeners t.Name (ls.Add id mb.chans.length).2
                  chans := mb.chans ++ [{ cap := 0, closed := false }] } with hA
            obtain ⟨gat, -, gal, gac, -, -, -, -⟩ := gaugeInc_frame mbA
            refine ⟨rfl, by rw [gac], ⟨t, by rw [gat]; exact h1⟩,
              ⟨(ls.Add id mb.chans.length).2, ?_, ?_, ?_⟩⟩
            · rw [gal, ← hname]; exact lookup?_setKey_self _ _ _
            · simp [Listeners.Add, Listeners.Exists, lookup?_setKey_self]
            · simp [Listeners.Add, Listeners.Get, lookup?_setKey_self]
        | none =>
            rw [Subscribe_eq_fresh_listeners mb id topic t h1 h2]
            set mbB : MessageBus :=
              { mb with
                  listeners := setKey mb.listeners t.Name (NewListeners.Add id mb.chans.length).2
                  chans := mb.chans ++ [{ cap := 0, closed := false }] } with hB
            obtain ⟨gbt, -, gbl, gbc, -, -, -, -⟩ := gaugeInc_frame mbB
            refine ⟨rfl, by rw [gbc], ⟨t, by rw [gbt]; exact h1⟩,
              ⟨(NewListeners.Add id mb.chans.length).2, ?_, ?_, ?_⟩⟩
            · rw [gbl, ← hname]; exact lookup?_setKey_self _ _ _
            · simp [Listeners.Add, Listeners.Exists, NewListeners, lookup?_setKey_self]
            · simp [Listeners.Add, Listeners.Get, NewListeners, lookup?_setKey_self]
    | none =>
        have h2 : lookup? mb.listeners topic = none := by
          cases h2 : lookup? mb.listeners topic with
          | none => rfl
          | some ls => exact absurd (h1 ▸ hlt (topic, ls) (lookup?_mem h2)) (by simp)
        rw [Subscribe_eq_fresh_topic mb id topic h1]
        set mbT : MessageBus :=
          { mb with topics := setKey mb.topics topic { Name := topic, Sequence := 0 } } with hT
        have h1' : lookup? mbT.topics topic = some { Name := topic, Sequence := 0 } :=
          lookup?_setKey_self _ _ _
        have h2' : lookup? mbT.listeners
            ({ Name := topic, Sequence := 0 } : Topic).Name = none := h2
        rw [Subscribe_eq_fresh_listeners mbT id topic _ h1' h2']
        set mbB : MessageBus :=
          { mbT with
              listeners := setKey mbT.listeners topic (NewListeners.Add id mbT.chans.length).2
              chans := mbT.chans ++ [{ cap := 0, closed := false }] } with hB
        obtain ⟨gbt, -, gbl, gbc, -, -, -, -⟩ := gaugeInc_frame mbB
        refine ⟨rfl, by rw [gbc], ⟨{ Name := topic, Sequence := 0 }, by rw [gbt]; exact h1'⟩,
          ⟨(NewListeners.Add id mb.chans.length).2, ?_, ?_, ?_⟩⟩
        · rw [gbl]; exact lookup?_setKey_self _ _ _
        · simp [Listeners.Add, Listeners.Exists, NewListeners, lookup?_setKey_self]
        · simp [Listeners.Add, Listeners.Get, NewListeners, lookup?_setKey_self]

/-- Witness for C6 at a concrete input: a fresh bus, then two subscribes
of the same id. -/
theorem subscribe_idempotent_witness :
    busWF (NewMessageBus ⟨false, 4⟩) ∧
    (NewMessageBus ⟨false, 4⟩).subscribed "a" "t" = false ∧
    (((NewMessageBus ⟨false, 4⟩).Subscribe "a" "t").1
        = some (NewMessageBus ⟨false, 4⟩).chans.length ∧
     (((NewMessageBus ⟨false, 4⟩).Subscribe "a" "t").2).chans
        = (NewMessageBus ⟨false, 4⟩).chans ++ [{ cap := 0, closed := false }] ∧
     (∃ t, lookup? (((NewMessageBus ⟨false, 4⟩).Subscribe "a" "t").2).topics "t" = some t) ∧
     (∃ ls, lookup? (((NewMessageBus ⟨false, 4⟩).Subscribe "a" "t").2).listeners "t"
          = some ls ∧ ls.Exists "a" = true ∧
          ls.Get "a" = some (NewMessageBus ⟨false, 4⟩).chans.length)) :=
  ⟨by decide, by decide,
    subscribe_idempotent.2 (NewMessageBus ⟨false, 4⟩) "a" "t" (by decide) (by decide)⟩

/-- C7 counterexample: on a metrics-enabled bus, `Unsubscribe` of an id
that was never subscribed (topic unknown) is not free of observable
effect — the deferred `bus.subscribers` gauge decrement still runs and
the gauge drops from 0 to -1. -/
theorem unsubscribe_noop_gauge_cex :
    ((NewMessageBus ⟨true, 4⟩).Unsubscribe "a" "t").metrics.busSubscribers = -1 ∧
    (NewMessageBus ⟨true, 4⟩).metrics.busSubscribers = 0 := by decide

/-- C7 amended: on a well-formed bus, `Unsubscribe(id, topic)` with `id`
currently subscribed closes that subscriber's channel and removes its
entry from the listener set without panicking; with `id` not subscribed
(or the topic unknown) it leaves the topic registry, queues, listener
sets, channel store, delivery log and panic flag unchanged — but, when
metrics are enabled, the `bus.subscribers` gauge is still decremented
(see the counterexample), so the no-op is silent only up to that
metric. -/
theorem unsubscribe_spec (mb : MessageBus) (id topic : String) (hwf : busWF mb) :
    if mb.subscribed id topic = true then
      ∃ t ls ch c,
        lookup? mb.topics topic = some t ∧
        lookup? mb.listeners t.Name = some ls ∧
        ls.Get id = some ch ∧
        mb.chans[ch]? = some c ∧ c.closed = false ∧
        (mb.Unsubscribe id topic).chans[ch]? = some { c with closed := true } ∧
        (∃ ls', lookup? (mb.Unsubscribe id topic).listeners t.Name = some ls' ∧
          ls'.Exists id = false ∧ ls'.Get id = none) ∧
        (mb.Unsubscribe id topic).panicked = false
    else
      (mb.Unsubscribe id topic).topics = mb.topics ∧
      (mb.Unsubscribe id topic).queues = mb.queues ∧
      (mb.Unsubscribe id topic).listeners = mb.listeners ∧
      (mb.Unsubscribe id topic).chans = mb.chans ∧
      (mb.Unsubscribe id topic).delivered = mb.delivered ∧
      (mb.Unsubscribe id topic).panicked = mb.panicked := by
  obtain ⟨hpan, -, -, -, hlswf, -⟩ := hwf
  by_cases hs : mb.subscribed id topic = true
  · rw [if_pos hs]
    unfold MessageBus.subscribed at hs
    cases h1 : lookup? mb.topics topic with
    | none => rw [h1] at hs; simp at hs
    | some t =>
        rw [h1] at hs
        cases h2 : lookup? mb.listeners t.Name with
        | none => simp [h2] at hs
        | some ls =>
            have h3 : ls.Exists id = true := by simpa [h2] using hs
            obtain ⟨hids, hchs, hic, hci, hopen⟩ := hlswf (t.Name, ls) (lookup?_mem h2)
            obtain ⟨b, hb⟩ := Option.isSome_iff_exists.1 (by
              unfold Listeners.Exists at h3
              exact h3)
            obtain ⟨ch, hch⟩ := Option.isSome_iff_exists.1 (hic (id, b) (lookup?_mem hb))
            have hchmem : (id, ch) ∈ ls.chs := lookup?_mem hch
            have hopench : openChan mb.chans ch = true := hopen (id, ch) hchmem
            unfold openChan at hopench
            obtain ⟨c, hc⟩ : ∃ c, mb.chans[ch]? = some c := by
              cases hcc : mb.chans[ch]? with
              | none => rw [hcc] at hopench; simp at hopench
              | some c => exact ⟨c, rfl⟩
            have hcop : c.closed = false := by
              rw [hc] at hopench
              simpa using hopench
            have hlen : ch < mb.chans.length := (List.getElem?_eq_some.1 hc).1
            rw [Unsubscribe_eq_remove mb id topic t ls ch h1 h2 h3 hch]
            set mbR : MessageBus :=
              { mb with listeners := setKey mb.listeners t.Name (ls.Remove id).2 } with hR
            have hcR : mbR.chans[ch]? = some c := hc
            rw [closeChan_eq mbR ch c hcR hcop]
            set mbC : MessageBus :=
              { mbR with chans := mbR.chans.set ch { c with closed := true } } with hC
            obtain ⟨-, -, gl, gc, -, gp, -, -⟩ := gaugeDec_frame mbC
            refine ⟨t, ls, ch, c, rfl, h2, hch, hc, hcop, ?_, ?_, ?_⟩
            · rw [gc, hC]
              show (mbR.chans.set ch { c with closed := true })[ch]?
                = some { c with closed := true }
              exact List.getElem?_set_self (show ch < mbR.chans.length from hlen)
            · refine ⟨(ls.Remove id).2, ?_, ?_, ?_⟩
              · rw [gl, hC]
                show lookup? mbR.listeners t.Name = some (ls.Remove id).2
                rw [hR]
                exact lookup?_setKey_self _ _ _
              · simp [Listeners.Remove, Listeners.Exists, lookup?_eraseKey_self hids]
              · simp [Listeners.Remove, Listeners.Get, lookup?_eraseKey_self hchs]
            · rw [gp, hC]
              show mbR.panicked = false
              rw [hR]
              exact hpan
  · rw [if_neg hs]
    have hsf : mb.subscribed id topic = false := by simpa using hs
    unfold MessageBus.subscribed at hsf
    have key : mb.Unsubscribe id topic = mb.gaugeDec := by
      cases h1 : lookup? mb.topics topic with
      | none => exact Unsubscribe_eq_noop_topic mb id topic h1
      | some t =>
          rw [h1] at hsf
          cases h2 : lookup? mb.listeners t.Name with
          | none => exact Unsubscribe_eq_noop_listeners mb id topic t h1 h2
          | some ls =>
              have h3 : ls.Exists id = false := by simpa [h2] using hsf
              exact Unsubscribe_eq_noop_id mb id topic t ls h1 h2 h3
    rw [key]
    obtain ⟨gt, gq, gl, gc, gd, gp, -, -⟩ := gaugeDec_frame mb
    exact ⟨gt, gq, gl, gc, gd, gp⟩

/-- Witness for the C7 amended theorem at a concrete input: subscribe one
id, then unsubscribe it; the channel is closed and the entry removed. -/
theorem unsubscribe_spec_witness :
    busWF (((NewMessageBus ⟨false, 4⟩).Subscribe "a" "t").2) ∧
    (if (((NewMessageBus ⟨false, 4⟩).Subscribe "a" "t").2).subscribed "a" "t" = true then
      ∃ t ls ch c,
        lookup? (((NewMessageBus ⟨false, 4⟩).Subscribe "a" "t").2).topics "t" = some t ∧
        lookup? (((NewMessageBus ⟨false, 4⟩).Subscribe "a" "t").2).listeners t.Name
          = some ls ∧
        ls.Get "a" = some ch ∧
        (((NewMessageBus ⟨false, 4⟩).Subscribe "a" "t").2).chans[ch]? = some c ∧
        c.closed = false ∧
        ((((NewMessageBus ⟨false, 4⟩).Subscribe "a" "t").2).Unsubscribe "a" "t").chans[ch]?
          = some { c with closed := true } ∧
        (∃ ls', lookup? ((((NewMessageBus ⟨false, 4⟩).Subscribe "a" "t").2).Unsubscribe
            "a" "t").listeners t.Name = some ls' ∧
          ls'.Exists "a" = false ∧ ls'.Get "a" = none) ∧
        ((((NewMessageBus ⟨false, 4⟩).Subscribe "a" "t").2).Unsubscribe "a" "t").panicked
          = false
    else
      ((((NewMessageBus ⟨false, 4⟩).Subscribe "a" "t").2).Unsubscribe "a" "t").topics
        = (((NewMessageBus ⟨false, 4⟩).Subscribe "a" "t").2).topics ∧
      ((((NewMessageBus ⟨false, 4⟩).Subscribe "a" "t").2).Unsubscribe "a" "t").queues
        = (((NewMessageBus ⟨false, 4⟩).Subscribe "a" "t").2).queues ∧
      ((((NewMessageBus ⟨false, 4⟩).Subscribe "a" "t").2).Unsubscribe "a" "t").listeners
        = (((NewMessageBus ⟨false, 4⟩).Subscribe "a" "t").2).listeners ∧
      ((((NewMessageBus ⟨false, 4⟩).Subscribe "a" "t").2).Unsubscribe "a" "t").chans
        = (((NewMessageBus ⟨false, 4⟩).Subscribe "a" "t").2).chans ∧
      ((((NewMessageBus ⟨false, 4⟩).Subscribe "a" "t").2).Unsubscribe "a" "t").delivered
        = (((NewMessageBus ⟨false, 4⟩).Subscribe "a" "t").2).delivered ∧
      ((((NewMessageBus ⟨false, 4⟩).Subscribe "a" "t").2).Unsubscribe "a" "t").panicked
        = (((NewMessageBus ⟨false, 4⟩).Subscribe "a" "t").2).panicked) :=
  ⟨by decide,
    unsubscribe_spec (((NewMessageBus ⟨false, 4⟩).Subscribe "a" "t").2) "a" "t" (by decide)⟩

theorem reqInc_frame (mb : MessageBus) :
    (mb.reqInc).topics = mb.topics ∧ (mb.reqInc).queues = mb.queues ∧
    (mb.reqInc).listeners = mb.listeners ∧ (mb.reqInc).chans = mb.chans ∧
    (mb.reqInc).delivered = mb.delivered ∧ (mb.reqInc).panicked = mb.panicked ∧
    (mb.reqInc).withMetrics = mb.withMetrics ∧
    (mb.reqInc).maxQueueSize = mb.maxQueueSize := by
  unfold MessageBus.reqInc
  split <;> simp

theorem NewTopic_eq_some (mb : MessageBus) (s : String) (t : Topic)
    (h : lookup? mb.topics s = some t) : mb.NewTopic s = (t, mb) := by
  unfold MessageBus.NewTopic
  simp [h]

theorem NewTopic_eq_none (mb : MessageBus) (s : String)
    (h : lookup? mb.topics s = none) :
    mb.NewTopic s
      = ({ Name := s, Sequence := 0 },
         { mb with
             topics := setKey mb.topics s { Name := s, Sequence := 0 }
             metrics :=
               if mb.withMetrics then
                 { mb.metrics with busTopics := mb.metrics.busTopics + 1 }
               else mb.metrics }) := by
  unfold MessageBus.NewTopic
  simp [h]

theorem NewMessage_eq (mb : MessageBus) (t : Topic) (p : Payload) :
    mb.NewMessage t p
      = ({ ID := t.Sequence, Topic := t.Name, Payload := p },
         { t with Sequence := (t.Sequence + 1) % U64 },
         { mb with
             topics := setKey mb.topics t.Name { t with Sequence := (t.Sequence + 1) % U64 }
             metrics :=
               if mb.withMetrics then
                 { mb.metrics with busMessages := mb.metrics.busMessages + 1 }
               else mb.metrics }) := by
  unfold MessageBus.NewMessage
  rfl

theorem queueFor_congr (mb1 mb2 : MessageBus) (key : String)
    (hq : mb1.queues = mb2.queues) (hm : mb1.maxQueueSize = mb2.maxQueueSize) :
    mb1.queueFor key = mb2.queueFor key := by
  unfold MessageBus.queueFor
  rw [hq, hm]

theorem Get_eq_none (mb : MessageBus) (t : Topic)
    (h : lookup? mb.queues t.Name = none) : mb.Get t = (none, mb) := by
  unfold MessageBus.Get
  simp [h]

theorem Get_eq_empty (mb : MessageBus) (t : Topic) (q : Queue)
    (h : lookup? mb.queues t.Name = some q) (he : q.items = []) :
    mb.Get t = (none, mb) := by
  unfold MessageBus.Get Queue.Pop
  rw [h]
  simp [he]

theorem Get_eq_pop (mb : MessageBus) (t : Topic) (q : Queue) (m : Message)
    (rest : List Message) (h : lookup? mb.queues t.Name = some q)
    (hi : q.items = m :: rest) :
    mb.Get t
      = (some m,
         { mb with
             queues := setKey mb.queues t.Name { q with items := rest }
             metrics :=
               if mb.withMetrics then
                 { mb.metrics with busFetched := mb.metrics.busFetched + 1 }
               else mb.metrics }) := by
  unfold MessageBus.Get Queue.Pop
  rw [h]
  simp [hi]

/-! Characterization of the fan-out (claim C4). -/

theorem notifyAll_foldl (m : Message) (ready : String → Bool) :
    ∀ (l : List (String × Nat)) (a : Nat) (log : List (String × Message)),
      l.foldl
          (fun acc idch => if ready idch.1 then (acc.1 + 1, acc.2 ++ [(idch.1, m)]) else acc)
          (a, log)
        = (a + (l.filter (fun p => ready p.1)).length,
           log ++ (l.filter (fun p => ready p.1)).map (fun p => (p.1, m)))
  | [], a, log => by simp
  | idch :: rest, a, log => by
      by_cases h : ready idch.1 = true
      · rw [List.foldl_cons, if_pos h,
          notifyAll_foldl m ready rest (a + 1) (log ++ [(idch.1, m)])]
        simp only [List.filter_cons, h, if_true, List.length_cons, List.map_cons,
          Prod.mk.injEq, List.append_assoc, List.singleton_append]
        exact ⟨by omega, trivial⟩
      · have h' : ready idch.1 = false := by simpa using h
        rw [List.foldl_cons, if_neg h, notifyAll_foldl m ready rest a log]
        simp [List.filter_cons, h']

theorem NotifyAll_filter (ls : Listeners) (m : Message) (ready : String → Bool) :
    ls.NotifyAll m ready
      = ((ls.chs.filter (fun p => ready p.1)).length,
         (ls.chs.filter (fun p => ready p.1)).map (fun p => (p.1, m))) := by
  unfold Listeners.NotifyAll
  rw [notifyAll_foldl m ready ls.chs 0 []]
  simp

theorem ListenersWF_length_eq (chans : List Chan) (ls : Listeners)
    (h : ListenersWF chans ls) : ls.chs.length = ls.ids.length := by
  obtain ⟨hids, hchs, hic, hci, -⟩ := h
  have h1 : (ls.ids.map Prod.fst) ⊆ (ls.chs.map Prod.fst) := by
    intro k hk
    rcases List.mem_map.1 hk with ⟨p, hp, rfl⟩
    exact (isSome_lookup? _ _).1 (hic p hp)
  have h2 : (ls.chs.map Prod.fst) ⊆ (ls.ids.map Prod.fst) := by
    intro k hk
    rcases List.mem_map.1 hk with ⟨p, hp, rfl⟩
    exact (isSome_lookup? _ _).1 (hci p hp)
  have l1 := (hids.subperm h1).length_le
  have l2 := (hchs.subperm h2).length_le
  simp only [List.length_map] at l1 l2
  omega

theorem Put_eq (mb : MessageBus) (m : Message) (ready : String → Bool) :
    mb.Put m ready
      = MessageBus.NotifyAll
          { mb with
              queues := setKey mb.queues m.Topic ((mb.queueFor m.Topic).Push m) }
          m ready := by
  unfold MessageBus.Put MessageBus.queueFor
  rfl

theorem NotifyAll_eq_some (mb : MessageBus) (m : Message) (ready : String → Bool)
    (ls : Listeners) (h : lookup? mb.listeners m.Topic = some ls) :
    mb.NotifyAll m ready
      = { mb with
            delivered := mb.delivered ++ (ls.NotifyAll m ready).2
            metrics :=
              if (ls.NotifyAll m ready).1 ≠ ls.Length ∧ mb.withMetrics then
                { mb.metrics with busDropped := mb.metrics.busDropped + 1 }
              else mb.metrics } := by
  unfold MessageBus.NotifyAll
  rw [h]

theorem Put_queues (mb : MessageBus) (m : Message) (ready : String → Bool) :
    (mb.Put m ready).queues = setKey mb.queues m.Topic ((mb.queueFor m.Topic).Push m) := by
  rw [Put_eq]
  exact (NotifyAll_frame _ m ready).2.1

theorem ServeHTTPPost_state (mb : MessageBus) (path : String) (body : Payload)
    (ready : String → Bool) :
    (mb.ServeHTTPPost path body ready).2
      = (((mb.NewTopic (trimSlashes path)).2.NewMessage (mb.NewTopic (trimSlashes path)).1
            body).2.2.Put
          ((mb.NewTopic (trimSlashes path)).2.NewMessage (mb.NewTopic (trimSlashes path)).1
            body).1 ready).reqInc := by
  unfold MessageBus.ServeHTTPPost
  rfl

theorem ServeHTTPPost_queues (mb : MessageBus) (path : String) (body : Payload)
    (ready : String → Bool) :
    ∃ key msg, ((mb.ServeHTTPPost path body ready).2).queues
      = setKey mb.queues key ((mb.queueFor key).Push msg) := by
  rw [ServeHTTPPost_state]
  refine ⟨((mb.NewTopic (trimSlashes path)).2.NewMessage (mb.NewTopic (trimSlashes path)).1
      body).1.Topic,
    ((mb.NewTopic (trimSlashes path)).2.NewMessage (mb.NewTopic (trimSlashes path)).1
      body).1, ?_⟩
  obtain ⟨nq, -, -, -, -, -, nm, -⟩ := NewTopic_frame mb (trimSlashes path)
  obtain ⟨mq2, -, -, -, -, -, mm2, -⟩ :=
    NewMessage_frame (mb.NewTopic (trimSlashes path)).2 (mb.NewTopic (trimSlashes path)).1 body
  rw [(reqInc_frame _).2.1, Put_queues, mq2, nq,
    queueFor_congr
      ((mb.NewTopic (trimSlashes path)).2.NewMessage (mb.NewTopic (trimSlashes path)).1
        body).2.2 mb _ (by rw [mq2, nq]) (by rw [mm2, nm])]

theorem pullOnce_eq_some (mb : MessageBus) (name : String) (t : Topic)
    (h : lookup? mb.topics name = some t) : mb.pullOnce name = mb.Get t := by
  unfold MessageBus.pullOnce
  rw [NewTopic_eq_some mb name t h]

theorem pullOnce_eq_none (mb : MessageBus) (name : String)
    (h : lookup? mb.topics name = none) :
    mb.pullOnce name
      = MessageBus.Get
          { mb with
              topics := setKey mb.topics name { Name := name, Sequence := 0 }
              metrics :=
                if mb.withMetrics then
                  { mb.metrics with busTopics := mb.metrics.busTopics + 1 }
                else mb.metrics }
          { Name := name, Sequence := 0 } := by
  unfold MessageBus.pullOnce
  rw [NewTopic_eq_none mb name h]

theorem Push_range_step (mq n : Nat) (hmq : 1 ≤ mq) (f : Nat → Message) (m : Message)
    (hm : m = f n) :
    Queue.Push { maxlen := mq, items := ((List.range n).drop (n - mq)).map f } m
      = { maxlen := mq, items := ((List.range (n + 1)).drop (n + 1 - mq)).map f } := by
  subst hm
  unfold Queue.Push
  by_cases hc : n < mq
  · have h0 : n - mq = 0 := by omega
    have h1 : n + 1 - mq = 0 := by omega
    rw [h0, h1]
    simp only [List.drop_zero]
    rw [if_neg (by simp only [List.length_map, List.length_range]; omega)]
    simp [List.range_succ]
  · have hmqn : mq ≤ n := by omega
    rw [if_pos (by simp only [List.length_map, List.length_drop, List.length_range]; omega)]
    rw [← List.map_drop, List.drop_drop]
    have harith : n - mq + 1 = n + 1 - mq := by omega
    rw [harith, List.range_succ,
      List.drop_append_of_le_length (by simp only [List.length_range]; omega)]
    simp

theorem publishOne_state (mb : MessageBus) (name : String) (p : Payload)
    (ready : String → Bool) (t : Topic) (h1 : lookup? mb.topics name = some t)
    (hname : t.Name = name) :
    lookup? (mb.publishOne name p ready).topics name
        = some { Name := name, Sequence := (t.Sequence + 1) % U64 } ∧
    (mb.publishOne name p ready).maxQueueSize = mb.maxQueueSize ∧
    lookup? (mb.publishOne name p ready).queues name
        = some ((mb.queueFor name).Push { ID := t.Sequence, Topic := name, Payload := p }) := by
  have hpe : mb.publishOne name p ready
      = (mb.NewMessage t p).2.2.Put (mb.NewMessage t p).1 ready := by
    unfold MessageBus.publishOne
    rw [NewTopic_eq_some mb name t h1]
  rw [hpe, NewMessage_eq]
  dsimp only
  set mbM : MessageBus :=
    { mb with
        topics := setKey mb.topics t.Name { t with Sequence := (t.Sequence + 1) % U64 }
        metrics :=
          if mb.withMetrics then
            { mb.metrics with busMessages := mb.metrics.busMessages + 1 }
          else mb.metrics } with hM
  refine ⟨?_, ?_, ?_⟩
  · rw [(Put_frame mbM _ ready).1]
    show lookup? (setKey mb.topics t.Name
        { Name := t.Name, Sequence := (t.Sequence + 1) % U64 }) name = _
    rw [hname, lookup?_setKey_self]
  · rw [(Put_frame mbM _ ready).2.2.2.2.2.1]
  · rw [Put_queues]
    dsimp only
    show lookup? (setKey mb.queues t.Name
        ((mbM.queueFor t.Name).Push { ID := t.Sequence, Topic := t.Name, Payload := p })) name
      = _
    rw [hname, lookup?_setKey_self,
      queueFor_congr mbM mb name (by rw [hM]) (by rw [hM])]

theorem publishN_state (w : Bool) (mq : Nat) (name : String) (payloads : Nat → Payload)
    (ready : String → Bool) (hmq : 1 ≤ mq) :
    ∀ n : Nat,
      lookup?
          ((((NewMessageBus ⟨w, mq⟩).NewTopic name).2).publishN name payloads ready n).topics
          name
        = some { Name := name, Sequence := n % U64 } ∧
      ((((NewMessageBus ⟨w, mq⟩).NewTopic name).2).publishN name payloads ready n).maxQueueSize
        = mq ∧
      lookup?
          ((((NewMessageBus ⟨w, mq⟩).NewTopic name).2).publishN name payloads ready n).queues
          name
        = (if n = 0 then none
           else some { maxlen := mq,
                       items := ((List.range n).drop (n - mq)).map
                         (fun k => { ID := k % U64, Topic := name, Payload := payloads k }) })
  | 0 => by
      refine ⟨?_, ?_, ?_⟩ <;>
        simp [MessageBus.publishN, NewMessageBus, MessageBus.NewTopic, lookup?, setKey]
  | n + 1 => by
      obtain ⟨ih1, ih2, ih4⟩ := publishN_state w mq name payloads ready hmq n
      set mb := (((NewMessageBus ⟨w, mq⟩).NewTopic name).2).publishN name payloads ready n
        with hmb
      have hstep :
          (((NewMessageBus ⟨w, mq⟩).NewTopic name).2).publishN name payloads ready (n + 1)
            = mb.publishOne name (payloads n) ready := by
        rw [MessageBus.publishN]
      obtain ⟨hs1, hs2, hs3⟩ :=
        publishOne_state mb name (payloads n) ready { Name := name, Sequence := n % U64 }
          ih1 rfl
      have hqf : mb.queueFor name
          = { maxlen := mq,
              items := ((List.range n).drop (n - mq)).map
                (fun k => { ID := k % U64, Topic := name, Payload := payloads k }) } := by
        unfold MessageBus.queueFor
        rw [ih4]
        by_cases hn : n = 0
        · subst hn
          simp [ih2]
        · simp [hn]
      refine ⟨?_, ?_, ?_⟩
      · rw [hstep, hs1]
        simp [Nat.mod_add_mod]
      · rw [hstep, hs2, ih2]
      · rw [hstep, hs3, hqf,
          Push_range_step mq n hmq
            (fun k => { ID := k % U64, Topic := name, Payload := payloads k }) _ rfl]
        simp

theorem pullN_spec (name : String) :
    ∀ (k : Nat) (mb : MessageBus) (q : Queue),
      lookup? mb.queues name = some q →
      (∀ t, lookup? mb.topics name = some t → t.Name = name) →
      (mb.pullN name k).1
        = (q.items.take k).map some ++ List.replicate (k - q.items.length) none
  | 0, mb, q, hq, htop => by simp [MessageBus.pullN]
  | k + 1, mb, q, hq, htop => by
      have main : ∀ (mb' : MessageBus) (t : Topic), t.Name = name →
          lookup? mb'.queues name = some q →
          (∀ u, lookup? mb'.topics name = some u → u.Name = name) →
          ((mb'.Get t).1 :: ((mb'.Get t).2.pullN name k).1)
            = (q.items.take (k + 1)).map some
              ++ List.replicate ((k + 1) - q.items.length) none := by
        intro mb' t hname hq' htop'
        cases hi : q.items with
        | nil =>
            rw [Get_eq_empty mb' t q (hname ▸ hq') hi]
            rw [pullN_spec name k mb' q hq' htop']
            simp [hi, List.replicate_succ]
        | cons m rest =>
            rw [Get_eq_pop mb' t q m rest (hname ▸ hq') hi]
            have hq2 : lookup?
                ({ mb' with
                    queues := setKey mb'.queues t.Name { q with items := rest }
                    metrics :=
                      if mb'.withMetrics then
                        { mb'.metrics with busFetched := mb'.metrics.busFetched + 1 }
                      else mb'.metrics } : MessageBus).queues name
                = some { q with items := rest } := by
              show lookup? (setKey mb'.queues t.Name { q with items := rest }) name = _
              rw [hname]
              exact lookup?_setKey_self _ _ _
            rw [pullN_spec name k _ { q with items := rest } hq2 (by exact htop')]
            simp [hi]
      unfold MessageBus.pullN
      cases h1 : lookup? mb.topics name with
      | some t =>
          rw [pullOnce_eq_some mb name t h1]
          exact main mb t (htop t h1) hq htop
      | none =>
          rw [pullOnce_eq_none mb name h1]
          refine main _ { Name := name, Sequence := 0 } rfl (by exact hq) ?_
          intro u hu
          have hu2 : lookup? (setKey mb.topics name { Name := name, Sequence := 0 }) name
              = some u := hu
          rw [lookup?_setKey_self] at hu2
          cases hu2
          rfl

theorem pullN_none (name : String) :
    ∀ (k : Nat) (mb : MessageBus),
      lookup? mb.queues name = none →
      (∀ t, lookup? mb.topics name = some t → t.Name = name) →
      (mb.pullN name k).1 = List.replicate k none
  | 0, mb, hq, htop => by simp [MessageBus.pullN]
  | k + 1, mb, hq, htop => by
      unfold MessageBus.pullN
      cases h1 : lookup? mb.topics name with
      | some t =>
          rw [pullOnce_eq_some mb name t h1, Get_eq_none mb t ((htop t h1) ▸ hq)]
          dsimp only
          rw [pullN_none name k mb hq htop]
          simp [List.replicate_succ]
      | none =>
          rw [pullOnce_eq_none mb name h1]
          rw [Get_eq_none _ _ (by exact hq)]
          dsimp only
          have htop2 : ∀ t, lookup?
              ({ mb with
                  topics := setKey mb.topics name { Name := name, Sequence := 0 }
                  metrics :=
                    if mb.withMetrics then
                      { mb.metrics with busTopics := mb.metrics.busTopics + 1 }
                    else mb.metrics } : MessageBus).topics name = some t → t.Name = name := by
            intro t ht
            have : lookup? (setKey mb.topics name { Name := name, Sequence := 0 }) name
                = some t := ht
            rw [lookup?_setKey_self] at this
            cases this
            rfl
          rw [pullN_none name k _ (by exact hq) htop2]
          simp [List.replicate_succ]

/-- C2: for every `n ≤ max-queue-size`, publishing `n` messages (`Put`,
via the publish pipeline) on an otherwise idle, freshly created topic and
then pulling `n+1` times (`Get`) yields first exactly the messages with
ids `0..n-1` in publish order (each `some`, the `ok = true` results), and
then the empty signal (`none`, `ok = false`) on the now-empty queue.  The
bound `n ≤ 2^64` only keeps the 64-bit sequence counter from wrapping. -/
theorem publish_then_pull_fifo (w : Bool) (mq : Nat) (name : String)
    (payloads : Nat → Payload) (ready : String → Bool) (n : Nat)
    (hn : n ≤ mq) (hu : n ≤ U64) :
    ((((NewMessageBus ⟨w, mq⟩).NewTopic name).2.publishN name payloads ready n).pullN name
        (n + 1)).1
      = (List.range n).map
          (fun k => some { ID := k, Topic := name, Payload := payloads k }) ++ [none] := by
  by_cases hn0 : n = 0
  · subst hn0
    have hnq : lookup? ((((NewMessageBus ⟨w, mq⟩).NewTopic name).2).publishN name payloads
        ready 0).queues name = none := by
      simp [MessageBus.publishN]
      rw [(NewTopic_frame _ name).1]
      simp [NewMessageBus, lookup?]
    have htop : ∀ t, lookup? ((((NewMessageBus ⟨w, mq⟩).NewTopic name).2).publishN name
        payloads ready 0).topics name = some t → t.Name = name := by
      intro t ht
      simp [MessageBus.publishN, NewMessageBus, MessageBus.NewTopic, lookup?, setKey] at ht
      rw [← ht]
    rw [pullN_none name 1 _ hnq htop]
    simp
  · have hmq : 1 ≤ mq := le_trans (by omega) hn
    obtain ⟨ih1, ih2, ih4⟩ := publishN_state w mq name payloads ready hmq n
    have hd : n - mq = 0 := by omega
    rw [hd, if_neg hn0, List.drop_zero] at ih4
    have htop : ∀ t, lookup? ((((NewMessageBus ⟨w, mq⟩).NewTopic name).2).publishN name
        payloads ready n).topics name = some t → t.Name = name := by
      intro t ht
      rw [ih1] at ht
      cases ht
      rfl
    rw [pullN_spec name (n + 1) _ _ ih4 htop]
    have hlen : ((List.range n).map
        (fun k => ({ ID := k % U64, Topic := name, Payload := payloads k } : Message))).length
        = n := by
      simp
    rw [List.take_of_length_le (by rw [hlen]; omega), hlen]
    have hrep : n + 1 - n = 1 := by omega
    rw [hrep, List.map_map]
    have hmap : (List.range n).map
          (some ∘ fun k => ({ ID := k % U64, Topic := name, Payload := payloads k } : Message))
        = (List.range n).map
          (fun k => some { ID := k, Topic := name, Payload := payloads k }) := by
      refine List.map_congr_left ?_
      intro k hk
      have hmod : k % U64 = k :=
        Nat.mod_eq_of_lt (lt_of_lt_of_le (List.mem_range.1 hk) hu)
      simp [Function.comp, hmod]
    rw [hmap]
    rfl

/-- Witness for C2 at a concrete input: three messages through a
max-queue-size-4 topic come back in order, then the empty signal. -/
theorem publish_then_pull_fifo_witness :
    (3 : Nat) ≤ 4 ∧ (3 : Nat) ≤ U64 ∧
    ((((NewMessageBus ⟨false, 4⟩).NewTopic "foo").2.publishN "foo" (fun k => [k])
        (fun _ => false) 3).pullN "foo" 4).1
      = (List.range 3).map
          (fun k => some { ID := k, Topic := "foo", Payload := [k] }) ++ [none] :=
  ⟨by omega, by decide,
    publish_then_pull_fifo false 4 "foo" (fun k => [k]) (fun _ => false) 3
      (by omega) (by decide)⟩

theorem Push_maxlen (q : Queue) (m : Message) : (q.Push m).maxlen = q.maxlen := rfl

theorem Push_length_le (q : Queue) (m : Message) (h : q.items.length ≤ max 1 q.maxlen) :
    (q.Push m).items.length ≤ max 1 q.maxlen := by
  have h1 : 1 ≤ max 1 q.maxlen := Nat.le_max_left 1 q.maxlen
  have h2 : q.maxlen ≤ max 1 q.maxlen := Nat.le_max_right 1 q.maxlen
  unfold Queue.Push
  by_cases hc : q.maxlen ≤ q.items.length
  · simp only [if_pos hc, List.length_append, List.length_drop, List.length_singleton]
    omega
  · simp only [if_neg hc, List.length_append, List.length_singleton]
    omega

theorem Pop_some_facts (q : Queue) (m : Message) (q' : Queue) (h : q.Pop = (some m, q')) :
    q'.maxlen = q.maxlen ∧ q'.items.length + 1 = q.items.length := by
  unfold Queue.Pop at h
  cases hi : q.items with
  | nil => rw [hi] at h; simp at h
  | cons a rest =>
      rw [hi] at h
      simp only [Prod.mk.injEq, Option.some.injEq] at h
      obtain ⟨-, h2⟩ := h
      rw [← h2]
      simp [hi]

theorem pullOnce_queues (mb : MessageBus) (name : String) :
    ((mb.pullOnce name).2).queues = mb.queues ∨
    ∃ q m q', lookup? mb.queues ((mb.NewTopic name).1).Name = some q ∧
      q.Pop = (some m, q') ∧
      ((mb.pullOnce name).2).queues = setKey mb.queues ((mb.NewTopic name).1).Name q' := by
  rcases (Get_frame (mb.NewTopic name).2 (mb.NewTopic name).1).2.2.2.2.2.2.2 with
    hg | ⟨q, m, q', hlq, hp, he⟩
  · left
    show ((mb.NewTopic name).2.Get (mb.NewTopic name).1).2.queues = mb.queues
    rw [hg, (NewTopic_frame mb name).1]
  · right
    refine ⟨q, m, q', ?_, hp, ?_⟩
    · rw [← (NewTopic_frame mb name).1]
      exact hlq
    · show ((mb.NewTopic name).2.Get (mb.NewTopic name).1).2.queues = _
      rw [he, (NewTopic_frame mb name).1]

theorem queues_bound_step (mq : Nat) (mb : MessageBus) (op : Op)
    (h : mb.maxQueueSize = mq ∧
      ∀ p ∈ mb.queues, p.2.maxlen = mq ∧ p.2.items.length ≤ max 1 mq) :
    (applyOp mb op).maxQueueSize = mq ∧
    ∀ p ∈ (applyOp mb op).queues, p.2.maxlen = mq ∧ p.2.items.length ≤ max 1 mq := by
  obtain ⟨hmq, hq⟩ := h
  cases op with
  | subscribe id topic =>
      refine ⟨?_, ?_⟩
      · show ((mb.Subscribe id topic).2).maxQueueSize = mq
        rw [(Subscribe_frame mb id topic).2.2.2.2.1, hmq]
      · show ∀ p ∈ ((mb.Subscribe id topic).2).queues, _
        rw [(Subscribe_frame mb id topic).1]
        exact hq
  | unsubscribe id topic =>
      refine ⟨?_, ?_⟩
      · show (mb.Unsubscribe id topic).maxQueueSize = mq
        rw [(Unsubscribe_frame mb id topic).2.2.2.2.1, hmq]
      · show ∀ p ∈ (mb.Unsubscribe id topic).queues, _
        rw [(Unsubscribe_frame mb id topic).2.1]
        exact hq
  | newTopic topic =>
      refine ⟨?_, ?_⟩
      · show ((mb.NewTopic topic).2).maxQueueSize = mq
        rw [(NewTopic_frame mb topic).2.2.2.2.2.2.1, hmq]
      · show ∀ p ∈ ((mb.NewTopic topic).2).queues, _
        rw [(NewTopic_frame mb topic).1]
        exact hq
  | pull topic =>
      refine ⟨?_, ?_⟩
      · show ((mb.pullOnce topic).2).maxQueueSize = mq
        rw [(pullOnce_frame mb topic).2.2.2.2, hmq]
      · intro p hp
        have hp' : p ∈ ((mb.pullOnce topic).2).queues := hp
        rcases pullOnce_queues mb topic with he | ⟨q, m, q', hlq, hpop, he⟩
        · rw [he] at hp'
          exact hq p hp'
        · rw [he] at hp'
          rcases mem_setKey hp' with rfl | hold
          · obtain ⟨hml, hlen⟩ := Pop_some_facts q m q' hpop
            obtain ⟨hf1, hf2⟩ := hq _ (lookup?_mem hlq)
            dsimp only at hf1 hf2
            refine ⟨?_, ?_⟩
            · show q'.maxlen = mq
              rw [hml]
              exact hf1
            · show q'.items.length ≤ max 1 mq
              omega
          · exact hq p hold
  | publish path body ready =>
      refine ⟨?_, ?_⟩
      · show ((mb.ServeHTTPPost path body ready).2).maxQueueSize = mq
        rw [(ServeHTTPPost_frame mb path body ready).2.2.2.2, hmq]
      · intro p hp
        have hp' : p ∈ ((mb.ServeHTTPPost path body ready).2).queues := hp
        obtain ⟨key, msg, he⟩ := ServeHTTPPost_queues mb path body ready
        rw [he] at hp'
        rcases mem_setKey hp' with rfl | hold
        · have hqf : (mb.queueFor key).maxlen = mq ∧
              (mb.queueFor key).items.length ≤ max 1 mq := by
            unfold MessageBus.queueFor
            cases hlk : lookup? mb.queues key with
            | none => exact ⟨hmq, by simp⟩
            | some q0 => exact hq _ (lookup?_mem hlk)
          refine ⟨?_, ?_⟩
          · show ((mb.queueFor key).Push msg).maxlen = mq
            rw [Push_maxlen]
            exact hqf.1
          · show ((mb.queueFor key).Push msg).items.length ≤ max 1 mq
            have hb := Push_length_le (mb.queueFor key) msg (by rw [hqf.1]; exact hqf.2)
            rw [hqf.1] at hb
            exact hb
        · exact hq p hold

/-- C3: after any trace of public operations on a bus configured with
max-queue-size at least 1, every topic's queue holds at most
max-queue-size messages; and concretely, with max-queue-size 4,
publishing 6 messages to one topic and then pulling 4 times returns the
messages with ids 2, 3, 4, 5 in that order (the two oldest were dropped
at push time). -/
theorem queue_bound_and_drop_oldest :
    (∀ (opts : Options) (ops : List Op), 1 ≤ opts.MaxQueueSize →
        ∀ p ∈ (run opts ops).queues, p.2.items.length ≤ opts.MaxQueueSize) ∧
    ((((NewMessageBus ⟨false, 4⟩).NewTopic "t").2.publishN "t" (fun k => [k])
        (fun _ => false) 6).pullN "t" 4).1
      = [some { ID := 2, Topic := "t", Payload := [2] },
         some { ID := 3, Topic := "t", Payload := [3] },
         some { ID := 4, Topic := "t", Payload := [4] },
         some { ID := 5, Topic := "t", Payload := [5] }] := by
  constructor
  · intro opts ops hmq1
    have hinv := foldl_invariant
      (P := fun mb => mb.maxQueueSize = opts.MaxQueueSize ∧
        ∀ p ∈ mb.queues,
          p.2.maxlen = opts.MaxQueueSize ∧ p.2.items.length ≤ max 1 opts.MaxQueueSize)
      (fun mb op h => queues_bound_step opts.MaxQueueSize mb op h) ops (NewMessageBus opts)
      ⟨rfl, by simp [NewMessageBus]⟩
    intro p hp
    have hb := (hinv.2 p hp).2
    rw [Nat.max_eq_right hmq1] at hb
    exact hb
  · decide

/-- Witness for the C3 general bound at a concrete input: one publish and
one pull on a capacity-4 bus. -/
theorem queue_bound_and_drop_oldest_witness :
    1 ≤ (⟨false, 4⟩ : Options).MaxQueueSize ∧
    (∀ p ∈ (run ⟨false, 4⟩
        [Op.publish "/t" [7] (fun _ => false), Op.pull "t"]).queues,
      p.2.items.length ≤ (⟨false, 4⟩ : Options).MaxQueueSize) :=
  ⟨by decide,
    queue_bound_and_drop_oldest.1 ⟨false, 4⟩
      [Op.publish "/t" [7] (fun _ => false), Op.pull "t"] (by decide)⟩

/-- C4: publishing a message to a topic with listeners attempts a
non-blocking send on each subscriber's channel — the hand-off log gains
exactly the ready subscribers' entries (in fan-out order), so a
subscriber whose channel cannot accept the message loses it while every
ready subscriber still receives it; when any subscriber lost the message
the `bus.dropped` counter is incremented (once per fan-out); and the
message is still appended (tail) to the topic's pull queue. -/
theorem put_fanout_spec (mb : MessageBus) (m : Message) (ready : String → Bool)
    (ls : Listeners) (hls : lookup? mb.listeners m.Topic = some ls)
    (hwf : busWF mb) (hm : mb.withMetrics = true) :
    (mb.Put m ready).delivered
      = mb.delivered ++ (ls.chs.filter (fun p => ready p.1)).map (fun p => (p.1, m)) ∧
    (mb.Put m ready).metrics.busDropped
      = mb.metrics.busDropped + (if ∃ p ∈ ls.chs, ready p.1 = false then 1 else 0) ∧
    lookup? (mb.Put m ready).queues m.Topic = some ((mb.queueFor m.Topic).Push m) ∧
    (∀ q, lookup? (mb.Put m ready).queues m.Topic = some q →
      q.items.getLast? = some m) := by
  obtain ⟨-, -, -, -, hlswf, -⟩ := hwf
  have hlen : ls.chs.length = ls.ids.length :=
    ListenersWF_length_eq mb.chans ls (hlswf (m.Topic, ls) (lookup?_mem hls))
  have hpushlast :
      ∀ q : Queue, (q.Push m).items.getLast? = some m := by
    intro q
    unfold Queue.Push
    simp [List.getLast?_concat]
  have hcond : ((ls.chs.filter (fun p => ready p.1)).length ≠ ls.Length)
      ↔ (∃ p ∈ ls.chs, ready p.1 = false) := by
    unfold Listeners.Length
    rw [← hlen]
    constructor
    · intro hne
      by_contra hall
      push_neg at hall
      have : ∀ p ∈ ls.chs, ready p.1 = true := by
        intro p hp
        cases hr : ready p.1 with
        | false => exact absurd hr (hall p hp)
        | true => rfl
      exact hne (List.filter_length_eq_length.2 this)
    · intro ⟨p, hp, hrp⟩ heq
      have := List.filter_length_eq_length.1 heq p hp
      rw [hrp] at this
      exact Bool.false_ne_true this
  rw [Put_eq]
  set mb1 : MessageBus :=
    { mb with queues := setKey mb.queues m.Topic ((mb.queueFor m.Topic).Push m) } with h1
  have hls1 : lookup? mb1.listeners m.Topic = some ls := hls
  rw [NotifyAll_eq_some mb1 m ready ls hls1, NotifyAll_filter]
  have hwm1 : mb1.withMetrics = true := hm
  refine ⟨rfl, ?_, ?_, ?_⟩
  · by_cases hd : (ls.chs.filter (fun p => ready p.1)).length ≠ ls.Length
    · rw [if_pos ⟨hd, hwm1⟩, if_pos (hcond.1 hd)]
    · rw [if_neg (fun hh => hd hh.1), if_neg (fun he => hd (hcond.2 he))]
      simp
  · show lookup? mb1.queues m.Topic = _
    exact lookup?_setKey_self _ _ _
  · intro q hq
    have hq1 : lookup? (setKey mb.queues m.Topic ((mb.queueFor m.Topic).Push m)) m.Topic
        = some q := hq
    rw [lookup?_setKey_self] at hq1
    cases hq1
    exact hpushlast _

/-- Witness for C4 at a concrete input: two subscribers on one topic, one
ready and one not; the ready one receives, the drop is counted, the
message reaches the queue. -/
theorem put_fanout_spec_witness :
    (lookup? ((((NewMessageBus ⟨true, 4⟩).Subscribe "a" "top").2.Subscribe "b" "top").2).listeners
        "top" = some { ids := [("a", true), ("b", true)], chs := [("a", 0), ("b", 1)] }) ∧
    busWF (((NewMessageBus ⟨true, 4⟩).Subscribe "a" "top").2.Subscribe "b" "top").2 ∧
    ((((NewMessageBus ⟨true, 4⟩).Subscribe "a" "top").2.Subscribe "b" "top").2).withMetrics
      = true ∧
    (((((NewMessageBus ⟨true, 4⟩).Subscribe "a" "top").2.Subscribe "b" "top").2.Put
        { ID := 0, Topic := "top", Payload := [1] } (fun s => s == "a")).delivered
      = ((((NewMessageBus ⟨true, 4⟩).Subscribe "a" "top").2.Subscribe "b" "top").2).delivered
        ++ (([("a", 0), ("b", 1)].filter (fun p => (fun s => s == "a") p.1)).map
             (fun p => (p.1, ({ ID := 0, Topic := "top", Payload := [1] } : Message)))) ∧
     ((((NewMessageBus ⟨true, 4⟩).Subscribe "a" "top").2.Subscribe "b" "top").2.Put
        { ID := 0, Topic := "top", Payload := [1] } (fun s => s == "a")).metrics.busDropped
      = ((((NewMessageBus ⟨true, 4⟩).Subscribe "a" "top").2.Subscribe
          "b" "top").2).metrics.busDropped
        + (if ∃ p ∈ [("a", (0 : Nat)), ("b", 1)], (fun s => s == "a") p.1 = false
           then 1 else 0) ∧
     lookup? ((((NewMessageBus ⟨true, 4⟩).Subscribe "a" "top").2.Subscribe "b" "top").2.Put
        { ID := 0, Topic := "top", Payload := [1] } (fun s => s == "a")).queues "top"
      = some (((((NewMessageBus ⟨true, 4⟩).Subscribe "a" "top").2.Subscribe
            "b" "top").2.queueFor "top").Push
              { ID := 0, Topic := "top", Payload := [1] }) ∧
     (∀ q, lookup? ((((NewMessageBus ⟨true, 4⟩).Subscribe "a" "top").2.Subscribe
          "b" "top").2.Put { ID := 0, Topic := "top", Payload := [1] }
          (fun s => s == "a")).queues "top" = some q →
        q.items.getLast? = some { ID := 0, Topic := "top", Payload := [1] })) :=
  ⟨by decide, by decide, by decide,
    put_fanout_spec (((NewMessageBus ⟨true, 4⟩).Subscribe "a" "top").2.Subscribe "b" "top").2
      { ID := 0, Topic := "top", Payload := [1] } (fun s => s == "a")
      { ids := [("a", true), ("b", true)], chs := [("a", 0), ("b", 1)] }
      (by decide) (by decide) (by decide)⟩

/-- C5 exhibit (code bug): the `POST`/`PUT` arm of `ServeHTTP` enforces no
payload bound at all — for every claimed bound `maxPayloadSize` and every
body that exceeds it, the request is answered 200 (never 413), the
topic's sequence counter advances to 1 and the oversize message is
enqueued.  `TestServeHTTPMaxPayloadSize` in `src/msgbus_test.go` instead
requires 413 with `payload exceeds max-payload-size` and no state
change. -/
theorem serveHTTP_post_ignores_payload_bound
    (maxPayloadSize : Nat) (opts : Options) (body : Payload) (ready : String → Bool)
    (_hover : maxPayloadSize < body.length) :
    (((NewMessageBus opts).ServeHTTPPost "/hello" body ready).1).status = 200 ∧
    (((NewMessageBus opts).ServeHTTPPost "/hello" body ready).1).status ≠ 413 ∧
    (((NewMessageBus opts).ServeHTTPPost "/hello" body ready).1).body
      = "message successfully published to hello with sequence 1" ∧
    lookup? (((NewMessageBus opts).ServeHTTPPost "/hello" body ready).2).topics "hello"
      = some { Name := "hello", Sequence := 1 } ∧
    lookup? (((NewMessageBus opts).ServeHTTPPost "/hello" body ready).2).queues "hello"
      = some { maxlen := opts.MaxQueueSize,
               items := [{ ID := 0, Topic := "hello", Payload := body }] } := by
  have htrim : trimSlashes "/hello" = "hello" := by decide
  unfold MessageBus.ServeHTTPPost MessageBus.reqInc MessageBus.NewTopic MessageBus.NewMessage
    MessageBus.Put MessageBus.NotifyAll NewMessageBus
  by_cases hw : opts.WithMetrics = true <;>
    simp [htrim, lookup?, setKey, Queue.Push, U64, hw] <;>
    decide

/-- Witness for the C5 exhibit at the failing input of the repository's
own test: a 16384-byte body, twice the 8192-byte default bound the test
assumes, still yields 200 and a published message. -/
theorem serveHTTP_post_ignores_payload_bound_witness :
    8192 < (List.replicate 16384 (88 : Byte)).length ∧
    ((((NewMessageBus ⟨false, 4⟩).ServeHTTPPost "/hello" (List.replicate 16384 88)
        (fun _ => false)).1).status = 200 ∧
     (((NewMessageBus ⟨false, 4⟩).ServeHTTPPost "/hello" (List.replicate 16384 88)
        (fun _ => false)).1).status ≠ 413 ∧
     (((NewMessageBus ⟨false, 4⟩).ServeHTTPPost "/hello" (List.replicate 16384 88)
        (fun _ => false)).1).body
        = "message successfully published to hello with sequence 1" ∧
     lookup? (((NewMessageBus ⟨false, 4⟩).ServeHTTPPost "/hello" (List.replicate 16384 88)
        (fun _ => false)).2).topics "hello" = some { Name := "hello", Sequence := 1 } ∧
     lookup? (((NewMessageBus ⟨false, 4⟩).ServeHTTPPost "/hello" (List.replicate 16384 88)
        (fun _ => false)).2).queues "hello"
        = some { maxlen := (⟨false, 4⟩ : Options).MaxQueueSize,
                 items := [{ ID := 0, Topic := "hello",
                             Payload := List.replicate 16384 88 }] }) :=
  ⟨by rw [List.length_replicate]; norm_num,
   serveHTTP_post_ignores_payload_bound 8192 ⟨false, 4⟩ (List.replicate 16384 88)
     (fun _ => false) (by rw [List.length_replicate]; norm_num)⟩

/-- C9: with metrics enabled, every `Subscribe` call adds one to the
`bus.subscribers` gauge and every `Unsubscribe` call subtracts one,
whatever path the call takes (the bumps are deferred and unconditional),
so the gauge need not equal the number of distinct active subscriptions:
subscribing twice with the same id leaves one subscription but a gauge of
two. -/
theorem subscribers_gauge_unconditional :
    (∀ (mb : MessageBus) (id topic : String), mb.withMetrics = true →
        ((mb.Subscribe id topic).2).metrics.busSubscribers
            = mb.metrics.busSubscribers + 1 ∧
        (mb.Unsubscribe id topic).metrics.busSubscribers
            = mb.metrics.busSubscribers - 1) ∧
    ((((NewMessageBus ⟨true, 4⟩).Subscribe "a" "t").2.Subscribe "a" "t").2.metrics.busSubscribers
        = 2 ∧
     (lookup? (((NewMessageBus ⟨true, 4⟩).Subscribe "a" "t").2.Subscribe "a" "t").2.listeners
        "t").map Listeners.Length = some 1) := by
  refine ⟨fun mb id topic hm => ⟨?_, ?_⟩, by decide, by decide⟩
  · unfold MessageBus.Subscribe MessageBus.gaugeInc
    cases h1 : lookup? mb.topics topic with
    | none =>
        cases h2 : lookup? mb.listeners topic with
        | none => simp [h1, h2, hm, NewListeners, Listeners.Exists, Listeners.Add, lookup?]
        | some ls =>
            by_cases h3 : ls.Exists id = true <;> simp [h1, h2, h3, hm]
    | some t =>
        cases h2 : lookup? mb.listeners t.Name with
        | none => simp [h1, h2, hm, NewListeners, Listeners.Exists, Listeners.Add, lookup?]
        | some ls =>
            by_cases h3 : ls.Exists id = true <;> simp [h1, h2, h3, hm]
  · unfold MessageBus.Unsubscribe MessageBus.gaugeDec MessageBus.closeChan
    cases h1 : lookup? mb.topics topic with
    | none => simp [h1, hm]
    | some t =>
        cases h2 : lookup? mb.listeners t.Name with
        | none => simp [h1, h2, hm]
        | some ls =>
            by_cases h3 : ls.Exists id = true
            · cases h4 : (ls.Remove id).1 with
              | none => simp [h1, h2, h3, h4, hm]
              | some ch =>
                  cases h5 : mb.chans[ch]? with
                  | none => simp [h1, h2, h3, h4, h5, hm]
                  | some c =>
                      by_cases h6 : c.closed <;> simp [h1, h2, h3, h4, h5, h6, hm]
            · simp [h1, h2, h3, hm]

/-- Witness for C9 at a concrete input: on a fresh metrics-enabled bus, a
first `Subscribe` raises the gauge to 1 and an `Unsubscribe` of an
unknown id (a no-op) lowers it by one. -/
theorem subscribers_gauge_unconditional_witness :
    (NewMessageBus ⟨true, 4⟩).withMetrics = true ∧
    ((((NewMessageBus ⟨true, 4⟩).Subscribe "x" "top").2).metrics.busSubscribers
        = (NewMessageBus ⟨true, 4⟩).metrics.busSubscribers + 1 ∧
     ((NewMessageBus ⟨true, 4⟩).Unsubscribe "x" "top").metrics.busSubscribers
        = (NewMessageBus ⟨true, 4⟩).metrics.busSubscribers - 1) :=
  ⟨rfl, subscribers_gauge_unconditional.1 (NewMessageBus ⟨true, 4⟩) "x" "top" rfl⟩

theorem busWF_newTopic (mb : MessageBus) (s : String) (hwf : busWF mb) :
    busWF ((mb.NewTopic s).2) := by
  cases h : lookup? mb.topics s with
  | some t =>
      rw [NewTopic_eq_some mb s t h]
      exact hwf
  | none =>
      obtain ⟨-, nl, nc, -, np, -, -, nt⟩ := NewTopic_frame mb s
      rcases nt with nt | nt
      · exact busWF_frame_eq _ mb nt nl nc np hwf
      · refine busWF_frame_eq _
          { mb with topics := setKey mb.topics s { Name := s, Sequence := 0 } }
          ?_ ?_ ?_ ?_ (busWF_topics_setKey mb s { Name := s, Sequence := 0 } rfl hwf)
        · rw [nt]
        · rw [nl]
        · rw [nc]
        · rw [np]

theorem busWF_newMessage (mb : MessageBus) (t : Topic) (p : Payload) (hwf : busWF mb) :
    busWF ((mb.NewMessage t p).2.2) := by
  obtain ⟨-, ml, mc, -, mp, -, -, mt⟩ := NewMessage_frame mb t p
  refine busWF_frame_eq _
    { mb with
        topics := setKey mb.topics t.Name { t with Sequence := (t.Sequence + 1) % U64 } }
    ?_ ?_ ?_ ?_ (busWF_topics_setKey mb t.Name _ rfl hwf)
  · rw [mt]
  · rw [ml]
  · rw [mc]
  · rw [mp]

theorem busWF_put (mb : MessageBus) (m : Message) (ready : String → Bool)
    (hwf : busWF mb) : busWF (mb.Put m ready) := by
  obtain ⟨pt, pl, pc, pp, -, -, -⟩ := Put_frame mb m ready
  exact busWF_frame_eq _ mb pt pl pc pp hwf

theorem busWF_get (mb : MessageBus) (t : Topic) (hwf : busWF mb) :
    busWF ((mb.Get t).2) := by
  obtain ⟨gt, gl, gc, -, gp, -, -, -⟩ := Get_frame mb t
  exact busWF_frame_eq _ mb gt gl gc gp hwf

theorem busWF_reqInc (mb : MessageBus) (hwf : busWF mb) : busWF mb.reqInc := by
  obtain ⟨rt, -, rl, rc, -, rp, -, -⟩ := reqInc_frame mb
  exact busWF_frame_eq _ mb rt rl rc rp hwf

theorem busWF_serveHTTPPost (mb : MessageBus) (path : String) (body : Payload)
    (ready : String → Bool) (hwf : busWF mb) :
    busWF ((mb.ServeHTTPPost path body ready).2) := by
  rw [ServeHTTPPost_state]
  exact busWF_reqInc _
    (busWF_put _ _ _ (busWF_newMessage _ _ _ (busWF_newTopic mb _ hwf)))

theorem busWF_pullOnce (mb : MessageBus) (name : String) (hwf : busWF mb) :
    busWF ((mb.pullOnce name).2) := by
  unfold MessageBus.pullOnce
  exact busWF_get _ _ (busWF_newTopic mb name hwf)

theorem busWF_step (mb : MessageBus) (op : Op) (h : busWF mb) : busWF (applyOp mb op) := by
  cases op with
  | subscribe id topic => exact busWF_subscribe mb id topic h
  | unsubscribe id topic => exact busWF_unsubscribe mb id topic h
  | publish path body ready => exact busWF_serveHTTPPost mb path body ready h
  | pull topic => exact busWF_pullOnce mb topic h
  | newTopic topic => exact busWF_newTopic mb topic h

theorem busWF_new (opts : Options) : busWF (NewMessageBus opts) := by
  unfold busWF TopicsNamed NewMessageBus
  simp

theorem busWF_run (opts : Options) (ops : List Op) : busWF (run opts ops) :=
  foldl_invariant busWF_step ops (NewMessageBus opts) (busWF_new opts)

/-- C10: `Listeners.Remove(id)` closes exactly the channel stored for
`id` before deleting the entry — in the model, the channel `Remove`
hands back for closing is precisely `Get id` — and through the public
interface the dangerous close branches are unreachable: `Unsubscribe`
calls `Remove` only after `Exists id`, so the close-of-missing-channel
case (a nil-channel close, a Go panic) and any second close of a
subscriber channel never happen.  The model records every such panic and
every double close in the `panicked` flag, and after any trace of public
operations (subscribe, unsubscribe, publish, pull, topic creation) on a
fresh bus the flag is still clear. -/
theorem unsubscribe_close_safe :
    (∀ (ls : Listeners) (id : String), (ls.Remove id).1 = ls.Get id) ∧
    (∀ (opts : Options) (ops : List Op), (run opts ops).panicked = false) := by
  constructor
  · intro ls id
    rfl
  · intro opts ops
    exact (busWF_run opts ops).1

end Msgbus
